import Mathlib

/-!
Verification development for the key-mapper macro subsystem and GUI row widget.

The repository provides the macro test suite (`src/tests/testcases/test_macros.py`)
and the GUI row widget (`src/keymapper/gtk/row.py`).  The macro
parser/evaluator module itself (`keymapper/injection/macros.py`) is not part of
the provided sources, so its definitions below are modelled from the
specification (`spec.md`), with the behaviour pinned down by the repository's
own test suite wherever the two disagree.  The row widget is embedded directly
from `src/keymapper/gtk/row.py`.
-/

namespace KeyMapper

/-! ## Character-level utilities (lexical preprocessor, section 4.D of the spec) -/

/-- Characters of a macro source string. -/
abbrev Chars := List Char

/-- Modelled from the spec: whitespace characters that the parser ignores
between tokens ("whitespace ignored between tokens"). -/
def isSpaceChar (c : Char) : Bool :=
  c = ' ' || c = '\n' || c = '\t' || c = '\r'

/-- Modelled from the spec: word characters forming a call head name
(the `name` of `name(arg, …)`), i.e. ASCII alphanumerics and underscore. -/
def isWordChar (c : Char) : Bool :=
  ('0' ≤ c && c ≤ '9') || ('a' ≤ c && c ≤ 'z') || ('A' ≤ c && c ≤ 'Z') || c = '_'

/-- Decimal digit test, by character range. -/
def isDigitChar (c : Char) : Bool :=
  '0' ≤ c && c ≤ '9'

/-- Quote characters that are optional around symbol arguments and stripped. -/
def isQuoteChar (c : Char) : Bool :=
  c = '"' || c = '\''

/-- Remove leading and trailing whitespace. -/
def trimChars (cs : Chars) : Chars :=
  ((cs.dropWhile isSpaceChar).reverse.dropWhile isSpaceChar).reverse

/-- Lowercase every character (op names and symbols are case-insensitive). -/
def lowerChars (cs : Chars) : Chars :=
  cs.map Char.toLower

/-- Uppercase every character (event-constant names are matched uppercase). -/
def upperChars (cs : Chars) : Chars :=
  cs.map Char.toUpper

/-- Does `pat` occur at the start of `s`? -/
def startsWithChars : Chars → Chars → Bool
  | [], _ => true
  | _ :: _, [] => false
  | p :: ps, c :: cs => p = c && startsWithChars ps cs

/-- Does `pat` occur as a contiguous substring of `s`? -/
def occursIn (pat : Chars) : Chars → Bool
  | [] => startsWithChars pat []
  | c :: cs => startsWithChars pat (c :: cs) || occursIn pat cs

/-! ## External collaborators: symbol table and event-constant registry -/

/-- Modelled from the spec: the external symbol table collaborator
("a symbol table resolving a human name to an output code"), instantiated
with a concrete sample of Linux key codes used by the test suite.  Keys are
stored lowercase; lookup is case-insensitive. -/
def sysmapPairs : List (Chars × Nat) :=
  [("a".data, 30), ("b".data, 48), ("c".data, 46), ("d".data, 32),
   ("k".data, 37), ("m".data, 50), ("r".data, 19), ("w".data, 17),
   ("1".data, 2), ("3".data, 4), ("minus".data, 12), ("btn_left".data, 272)]

/-- Association-list lookup over character-list keys. -/
def assocGet (k : Chars) : List (Chars × Nat) → Option Nat
  | [] => none
  | (k', v) :: rest => if k = k' then some v else assocGet k rest

/-- Case-insensitive symbol-table lookup (`system_mapping.get`). -/
def systemMappingGet (cs : Chars) : Option Nat :=
  assocGet (lowerChars cs) sysmapPairs

/-- Modelled from the spec: the symbolic-name-to-numeric-code registry for raw
events (`e(type, code, value)` accepts evdev constant names such as `EV_KEY`,
cf. `test_event_1`).  Keys are stored uppercase; lookup is case-insensitive. -/
def ecodePairs : List (Chars × Nat) :=
  [("EV_KEY".data, 1), ("EV_REL".data, 2), ("KEY_A".data, 30),
   ("REL_X".data, 0), ("REL_Y".data, 1), ("REL_WHEEL".data, 8),
   ("REL_HWHEEL".data, 6)]

/-- Case-insensitive event-constant lookup. -/
def ecodeGet (cs : Chars) : Option Nat :=
  assocGet (upperChars cs) ecodePairs

/-- Linux event type: key events. -/
def EV_KEY : Nat := 1

/-- Linux event type: relative events. -/
def EV_REL : Nat := 2

/-- Relative axis: horizontal pointer motion. -/
def REL_X : Nat := 0

/-- Relative axis: vertical pointer motion. -/
def REL_Y : Nat := 1

/-- Relative axis: horizontal wheel. -/
def REL_HWHEEL : Nat := 6

/-- Relative axis: vertical wheel. -/
def REL_WHEEL : Nat := 8

/-! ## Macro tree (section 3 of the spec) -/

/-- Direction argument of `mouse` and `wheel`. -/
inductive Dir where
  | up
  | down
  | left
  | right
deriving DecidableEq, Repr

/-- Values held in the shared variable store (`set` stores the parsed literal,
which is either an integer or a bare word). -/
inductive VarVal where
  | int (i : Int)
  | str (s : Chars)
deriving DecidableEq, Repr

/-- Modelled from the spec: the macro tree produced by the parser
(section 3, "Macro tree node").  Symbol arguments of `k`/`m`/`h` are already
resolved to key codes at construction time (cf. `test_return_errors`:
`parse('m(asdf, k(a))')` is an error).  `nop` represents an absent `ifeq`
branch ("either branch may be absent").  `holdKey` is the `h(symbol)` form
exercised by `test_hold_down` (`h(a)`: press the key, hold it until release). -/
inductive MTree where
  | key (code : Nat)
  | rep (n : Nat) (body : MTree)
  | wait (ms : Nat)
  | holdE
  | holdKey (code : Nat)
  | holdB (body : MTree)
  | modi (code : Nat) (body : MTree)
  | mouse (d : Dir) (speed : Nat)
  | wheel (d : Dir) (speed : Nat)
  | ev (ty code : Nat) (value : Int)
  | setv (name : Chars) (value : VarVal)
  | ifeq (name : Chars) (value : VarVal) (thenB elseB : MTree)
  | seq (a b : MTree)
  | nop
deriving DecidableEq, Repr

/-! ## Evaluator (section 4.G of the spec)

The evaluator is modelled as a pure function from the tree to the timed
stream of actions it performs.  The externally-toggled holding flag is
modelled by an oracle: a list of iteration counts, one entry consumed each
time a hold-sensitive loop (`h(body)`, `mouse`, `wheel`) starts; the entry
says how many times the loop observes the flag as `true` before observing
`false`.  An exhausted oracle reads as "flag is false", matching a macro
that was never armed with `press_key`. -/

/-- One action of an execution: an event emission `(type, code, value)` into
the event sink, or a suspension for the given number of milliseconds. -/
inductive Act where
  | emit (ty code : Nat) (value : Int)
  | sleep (ms : Nat)
deriving DecidableEq, Repr

/-- The shared variable store: name/value pairs, newest first. -/
abbrev Store := List (Chars × VarVal)

/-- Read the shared store (`get(name)`); absent keys give `none`. -/
def storeGet (n : Chars) : Store → Option VarVal
  | [] => none
  | (n', v) :: rest => if n = n' then some v else storeGet n rest

/-- Write the shared store (`set(name, value)`), last writer wins. -/
def storeSet (n : Chars) (v : VarVal) (st : Store) : Store :=
  (n, v) :: st

/-- Relative axis and signed value emitted per tick of `mouse(dir, speed)`:
up/left are negative, down/right positive, magnitude `speed`
(cf. `test_mouse`: `mouse(up, 4)` emits `(EV_REL, REL_Y, -4)`). -/
def mouseAxis (d : Dir) (speed : Nat) : Nat × Int :=
  match d with
  | .up => (REL_Y, -(speed : Int))
  | .down => (REL_Y, (speed : Int))
  | .left => (REL_X, -(speed : Int))
  | .right => (REL_X, (speed : Int))

/-- Relative axis and signed value emitted per tick of `wheel(dir, speed)`
(cf. `test_mouse`: `wheel(left, 3)` emits `(EV_REL, REL_HWHEEL, 1)`; the
speed controls the tick rate, not the magnitude). -/
def wheelAxis (d : Dir) : Nat × Int :=
  match d with
  | .up => (REL_WHEEL, 1)
  | .down => (REL_WHEEL, -1)
  | .left => (REL_HWHEEL, 1)
  | .right => (REL_HWHEEL, -1)

/-- Iterate a one-shot evaluation step `k` times, threading the oracle and
the store and concatenating the traces. -/
def iterState (f : List Nat → Store → List Act × List Nat × Store) :
    Nat → List Nat → Store → List Act × List Nat × Store
  | 0, s, st => ([], s, st)
  | k + 1, s, st =>
      let r1 := f s st
      let r2 := iterState f k r1.2.1 r1.2.2
      (r1.1 ++ r2.1, r2.2)

/-- Modelled from the spec: cooperative evaluation of a macro tree
(section 4.G, per-op semantics).  `S` is the configured
`keystroke_sleep_ms`; `sched` is the holding-flag oracle; the result is the
performed action trace, the unconsumed oracle, and the updated shared store. -/
def runM (S : Nat) : MTree → List Nat → Store → List Act × List Nat × Store
  | .key c, sched, st =>
      ([.emit EV_KEY c 1, .sleep S, .emit EV_KEY c 0, .sleep S], sched, st)
  | .rep n body, sched, st => iterState (runM S body) n sched st
  | .wait ms, sched, st => ([.sleep ms], sched, st)
  | .holdE, sched, st => ([], sched, st)
  | .holdKey c, sched, st => ([.emit EV_KEY c 1, .emit EV_KEY c 0], sched, st)
  | .holdB body, sched, st => iterState (runM S body) (sched.headD 0) sched.tail st
  | .modi c body, sched, st =>
      let r := runM S body sched st
      (.emit EV_KEY c 1 :: r.1 ++ [.emit EV_KEY c 0], r.2.1, r.2.2)
  | .mouse d speed, sched, st =>
      let ax := mouseAxis d speed
      ((List.replicate (sched.headD 0) [Act.emit EV_REL ax.1 ax.2, Act.sleep S]).flatten,
        sched.tail, st)
  | .wheel d _speed, sched, st =>
      let ax := wheelAxis d
      ((List.replicate (sched.headD 0) [Act.emit EV_REL ax.1 ax.2, Act.sleep S]).flatten,
        sched.tail, st)
  | .ev ty code v, sched, st => ([.emit ty code v], sched, st)
  | .setv n v, sched, st => ([], sched, storeSet n v st)
  | .ifeq n v thenB elseB, sched, st =>
      if storeGet n st = some v then runM S thenB sched st
      else runM S elseB sched st
  | .seq a b, sched, st =>
      let r1 := runM S a sched st
      let r2 := runM S b r1.2.1 r1.2.2
      (r1.1 ++ r2.1, r2.2)
  | .nop, sched, st => ([], sched, st)

/-- The events of an action trace, in emission order. -/
def eventsOf (tr : List Act) : List (Nat × Nat × Int) :=
  tr.filterMap fun a =>
    match a with
    | .emit ty code v => some (ty, code, v)
    | .sleep _ => none

/-- Number of emissions of the exact triple `(ty, c, v)` in a trace. -/
def countEmit (ty c : Nat) (v : Int) (tr : List Act) : Nat :=
  tr.countP fun a =>
    match a with
    | .emit ty' c' v' => ty' = ty && c' = c && v' = v
    | .sleep _ => false

/-- Total milliseconds of suspension commanded by a trace. -/
def sleepSum (tr : List Act) : Nat :=
  (tr.map fun a =>
    match a with
    | .emit _ _ _ => 0
    | .sleep ms => ms).sum

/-! ## Capability analysis (section 4.F of the spec) -/

/-- Modelled from the spec: the static `(event type, code)` capability pairs
of a macro tree (section 4.F).  `k`/`m`/`h(sym)` contribute their key code;
`mouse` and `wheel` contribute `REL_X`, `REL_Y` and `REL_WHEEL`
("overapproximation so consumers can pre-register all axes"); `e` contributes
its own pair; every op unions its children. -/
def capSet : MTree → List (Nat × Nat)
  | .key c => [(EV_KEY, c)]
  | .rep _ b => capSet b
  | .wait _ => []
  | .holdE => []
  | .holdKey c => [(EV_KEY, c)]
  | .holdB b => capSet b
  | .modi c b => (EV_KEY, c) :: capSet b
  | .mouse _ _ => [(EV_REL, REL_X), (EV_REL, REL_Y), (EV_REL, REL_WHEEL)]
  | .wheel _ _ => [(EV_REL, REL_X), (EV_REL, REL_Y), (EV_REL, REL_WHEEL)]
  | .ev ty code _ => [(ty, code)]
  | .setv _ _ => []
  | .ifeq _ _ thenB elseB => capSet thenB ++ capSet elseB
  | .seq a b => capSet a ++ capSet b
  | .nop => []

/-- Does the tree contain no raw-event (`e`) node? -/
def noEv : MTree → Bool
  | .rep _ b => noEv b
  | .holdB b => noEv b
  | .modi _ b => noEv b
  | .ev _ _ _ => false
  | .ifeq _ _ thenB elseB => noEv thenB && noEv elseB
  | .seq a b => noEv a && noEv b
  | _ => true

/-- Does the tree contain no `wheel` node with a horizontal direction?
Horizontal wheel ticks are emitted on `REL_HWHEEL`, which the capability
analysis does not advertise. -/
def noHWheel : MTree → Bool
  | .rep _ b => noHWheel b
  | .holdB b => noHWheel b
  | .modi _ b => noHWheel b
  | .wheel d _ => d = Dir.up || d = Dir.down
  | .ifeq _ _ thenB elseB => noHWheel thenB && noHWheel elseB
  | .seq a b => noHWheel a && noHWheel b
  | _ => true

/-! ## Plus sugar (section 4.D of the spec) -/

/-- Split at `'+'` characters that sit at bracket depth zero, tracking the
depth while scanning; `cur` is the reversed accumulator of the current chunk. -/
def splitTopPlusAux : Chars → Nat → Chars → List Chars
  | [], _, cur => [cur.reverse]
  | c :: rest, d, cur =>
    if c = '(' then splitTopPlusAux rest (d + 1) (c :: cur)
    else if c = ')' then splitTopPlusAux rest (d - 1) (c :: cur)
    else if c = '+' ∧ d = 0 then cur.reverse :: splitTopPlusAux rest d []
    else splitTopPlusAux rest d (c :: cur)

/-- The trimmed top-level-plus chunks of a source string. -/
def plusChunks (cs : Chars) : List Chars :=
  (splitTopPlusAux cs 0 []).map trimChars

/-- Build the nested modifier-hold form `m(c₁,m(c₂,…m(cₙ,h())…))`. -/
def buildNest (chunks : List Chars) : Chars :=
  chunks.foldr (fun c acc => "m(".data ++ c ++ ",".data ++ acc ++ ")".data) "h()".data

/-- Modelled from the spec: the plus-sugar rewrite (section 4.D).  When the
string contains a `'+'` outside any bracket (at least two top-level chunks)
and every trimmed chunk is non-empty, rewrite `a + b + … + z` to
`m(a,m(b,…m(z,h())…))`; otherwise return the string unchanged. -/
def handle_plus_syntax (s : String) : String :=
  let chunks := plusChunks s.data
  if 2 ≤ chunks.length ∧ chunks.all (· ≠ []) then ⟨buildNest chunks⟩ else s

/-- Is there a `'+'` at bracket depth zero (starting the scan at depth `d`)? -/
def hasTopPlus : Chars → Nat → Bool
  | [], _ => false
  | c :: rest, d =>
    if c = '(' then hasTopPlus rest (d + 1)
    else if c = ')' then hasTopPlus rest (d - 1)
    else if c = '+' ∧ d = 0 then true
    else hasTopPlus rest d

/-! ## Bracket matching and parameter extraction (sections 4.D and 4.E) -/

/-- Scan the characters following the first `'('` of a call; return the inner
text up to the matching `')'` and the characters after it.  `d` counts extra
open brackets, `acc` is the reversed inner accumulator; `none` means the
bracket never closes. -/
def splitBracket : Chars → Nat → Chars → Option (Chars × Chars)
  | [], _, _ => none
  | c :: rest, d, acc =>
    if c = ')' then
      if d = 0 then some (acc.reverse, rest)
      else splitBracket rest (d - 1) (c :: acc)
    else if c = '(' then splitBracket rest (d + 1) (c :: acc)
    else splitBracket rest d (c :: acc)

/-- Split the inner text of a call at commas that sit at bracket depth zero
(`_extract_params` before trimming). -/
def epAux : Chars → Nat → Chars → List Chars
  | [], _, cur => [cur.reverse]
  | c :: rest, d, cur =>
    if c = ',' ∧ d = 0 then cur.reverse :: epAux rest d []
    else if c = '(' then epAux rest (d + 1) (c :: cur)
    else if c = ')' then epAux rest (d - 1) (c :: cur)
    else epAux rest d (c :: cur)

/-- Modelled from the spec: `_extract_params` — split by commas at bracket
depth zero and strip each piece; `""` yields `[""]` and `","` yields
`["", ""]` (section 8, boundary cases). -/
def _extract_params (l : Chars) : List Chars :=
  (epAux l 0 []).map trimChars

/-! ## Atom parsing (section 4.E: empty / integer literal / identifier) -/

/-- Value of a decimal digit string. -/
def digitsToNat (cs : Chars) : Nat :=
  cs.foldl (fun a c => a * 10 + (c.toNat - 48)) 0

/-- Parse an optionally-negated decimal integer literal; `none` when the
characters are not a pure integer. -/
def toIntLit (cs : Chars) : Option Int :=
  if cs.head? = some '-' then
    if cs.tail ≠ [] ∧ cs.tail.all isDigitChar then some (-(digitsToNat cs.tail : Int))
    else none
  else
    if cs ≠ [] ∧ cs.all isDigitChar then some ((digitsToNat cs : Int))
    else none

/-- Strip one optional layer of single or double quotes around an argument
("quoted string with quotes stripped"). -/
def stripQuotes (cs : Chars) : Chars :=
  let a := if (cs.head?.map isQuoteChar).getD false then cs.tail else cs
  if (a.getLast?.map isQuoteChar).getD false then a.dropLast else a

/-! ## Node construction and validation (section 4.E) -/

/-- Intermediate result of `_parse_recurse`: nothing (empty string), an
integer literal, a bare-word/quoted string, or a parsed macro tree. -/
inductive PVal where
  | vnone
  | vint (i : Int)
  | vstr (s : Chars)
  | vtree (t : MTree)
deriving DecidableEq, Repr

/-- The recognised operation head names (case-insensitive, compared after
lowercasing). -/
def isKnownOp (hl : Chars) : Bool :=
  hl = "k".data || hl = "r".data || hl = "w".data || hl = "h".data ||
  hl = "m".data || hl = "mouse".data || hl = "wheel".data || hl = "e".data ||
  hl = "set".data || hl = "ifeq".data

/-- The symbol characters denoted by a parameter: a bare word directly, an
integer via its decimal spelling (`k(1)` taps the key named "1"). -/
def symOfPVal : PVal → Option Chars
  | .vint i => some (toString i).data
  | .vstr s => some s
  | _ => none

/-- Resolve a `k`/`m`/`h` symbol parameter through the symbol table. -/
def resolveSym (p : PVal) : Except String Nat :=
  match symOfPVal p with
  | none => .error "a symbol name was expected"
  | some s =>
      match systemMappingGet s with
      | some c => .ok c
      | none => .error ("symbol not found: " ++ ⟨s⟩)

/-- Resolve an `e` type/code parameter: a non-negative integer directly, or
an event-constant name through the registry. -/
def resolveEcode (p : PVal) : Except String Nat :=
  match p with
  | .vint i => if 0 ≤ i then .ok i.toNat else .error "event fields must be non-negative"
  | .vstr s =>
      match ecodeGet s with
      | some c => .ok c
      | none => .error ("unknown event code name: " ++ ⟨s⟩)
  | _ => .error "an integer was expected"

/-- Direction parameter of `mouse`/`wheel`. -/
def dirOfChars (s : Chars) : Except String Dir :=
  if lowerChars s = "up".data then .ok .up
  else if lowerChars s = "down".data then .ok .down
  else if lowerChars s = "left".data then .ok .left
  else if lowerChars s = "right".data then .ok .right
  else .error "mouse and wheel expect a direction"

/-- A `set`/`ifeq` stored value: an integer or bare-word literal. -/
def varValOfPVal (p : PVal) : Except String VarVal :=
  match p with
  | .vint i => .ok (.int i)
  | .vstr s => .ok (.str s)
  | _ => .error "a literal value was expected"

/-- An `ifeq` branch: a macro, or absent (empty parameter slot). -/
def branchOfPVal (p : PVal) : Except String MTree :=
  match p with
  | .vtree t => .ok t
  | .vnone => .ok .nop
  | _ => .error "an ifeq branch must be a macro or empty"

/-- Dispatch a recognised operation: validate arity and parameter kinds and
build the tree node (`hl` is the lowercased head name). -/
def makeNodeOps (hl : Chars) (ps : List PVal) : Except String MTree :=
  if hl = "k".data then
    match ps with
    | [p] => do pure (.key (← resolveSym p))
    | _ => .error "wrong number of parameters for k"
  else if hl = "r".data then
    match ps with
    | [pn, pb] =>
        match pn, pb with
        | .vint i, .vtree t => pure (.rep i.toNat t)
        | .vint _, _ => .error "r requires a macro as its second parameter"
        | _, _ => .error "r requires an integer repeat count"
    | _ => .error "wrong number of parameters for r"
  else if hl = "w".data then
    match ps with
    | [.vint i] => pure (.wait i.toNat)
    | [_] => .error "w requires an integer number of milliseconds"
    | _ => .error "wrong number of parameters for w"
  else if hl = "h".data then
    match ps with
    | [.vnone] => pure .holdE
    | [.vtree t] => pure (.holdB t)
    | [p] => do pure (.holdKey (← resolveSym p))
    | _ => .error "wrong number of parameters for h"
  else if hl = "m".data then
    match ps with
    | [psym, .vtree t] => do pure (.modi (← resolveSym psym) t)
    | [_, _] => .error "m requires a macro as its second parameter"
    | _ => .error "wrong number of parameters for m"
  else if hl = "mouse".data then
    match ps with
    | [.vstr d, .vint i] => do pure (.mouse (← dirOfChars d) i.toNat)
    | [_, _] => .error "mouse requires a direction and an integer speed"
    | _ => .error "wrong number of parameters for mouse"
  else if hl = "wheel".data then
    match ps with
    | [.vstr d, .vint i] => do pure (.wheel (← dirOfChars d) i.toNat)
    | [_, _] => .error "wheel requires a direction and an integer speed"
    | _ => .error "wrong number of parameters for wheel"
  else if hl = "e".data then
    match ps with
    | [pt, pc, pv] =>
        match pv with
        | .vint v => do pure (.ev (← resolveEcode pt) (← resolveEcode pc) v)
        | _ => .error "e requires an integer value"
    | _ => .error "wrong number of parameters for e"
  else if hl = "set".data then
    match ps with
    | [.vstr n, pv] => do pure (.setv n (← varValOfPVal pv))
    | [_, _] => .error "set requires a variable name"
    | _ => .error "wrong number of parameters for set"
  else
    match ps with
    | [.vstr n, pv, pThen, pElse] => do
        pure (.ifeq n (← varValOfPVal pv) (← branchOfPVal pThen) (← branchOfPVal pElse))
    | [_, _, _, _] => .error "ifeq requires a variable name"
    | _ => .error "wrong number of parameters for ifeq"

/-- Modelled from the spec: operation validation at node construction
(section 4.E): arity mismatches, non-integer where an integer is required
(the count of `r`, the milliseconds of `w`, the value of `e`), unresolvable symbols and
unknown head names produce errors.  `head` keeps the source spelling; op
dispatch lowercases it. -/
def makeNode (head : Chars) (ps : List PVal) : Except String MTree :=
  if isKnownOp (lowerChars head) = false then .error ("unknown function " ++ ⟨head⟩)
  else makeNodeOps (lowerChars head) ps

/-! ## Recursive descent (section 4.E, `_parse_recurse`) -/

/-- Handle a bracket-matched call `hd(inner)after`: parse the comma-split
parameters with `recurse`, validate the node with `makeNode`, and attach a
`.tail` chain when one follows the closing bracket. -/
def parseCall (recurse : Chars → Except String PVal) (hd inner after : Chars) :
    Except String PVal := do
  let ps ← (_extract_params inner).mapM recurse
  let node ← makeNode hd ps
  match after with
  | [] => pure (.vtree node)
  | '.' :: tl => do
      let t2 ← recurse tl
      match t2 with
      | .vtree t2' => pure (.vtree (.seq node t2'))
      | _ => .error "a macro must follow a dot"
  | _ => .error "unexpected characters after a closing bracket"

/-- Modelled from the spec: `_parse_recurse`.  Empty input is nothing; a
`head(args)` call is bracket-matched and handled by `parseCall`; anything
else is an integer literal or a bare/quoted word.  The fuel argument only
bounds the recursion depth for totality; every recursive call works on
strictly fewer characters, so the `cs.length + 1` supplied by `parseRec`
can never run out. -/
def parseRecF : Nat → Chars → Except String PVal
  | 0, _ => .error "parser recursion limit exceeded"
  | fuel + 1, cs =>
    if cs = [] then .ok .vnone
    else
      let hd := cs.takeWhile isWordChar
      let rest := cs.dropWhile isWordChar
      if hd ≠ [] ∧ rest.head? = some '(' then
        match splitBracket rest.tail 0 [] with
        | none => .error "an opening bracket is never closed"
        | some (inner, after) => parseCall (parseRecF fuel) hd inner after
      else
        match toIntLit cs with
        | some i => .ok (.vint i)
        | none => .ok (.vstr (stripQuotes cs))

/-- `_parse_recurse` at adequate recursion depth. -/
def parseRec (cs : Chars) : Except String PVal :=
  parseRecF (cs.length + 1) cs

/-! ## Top-level parse (section 4.E: whitespace/quote normalisation, plus
sugar, bracket balance check, recursive descent) -/

/-- The preprocessed character stream of a source string: plus sugar applied,
then whitespace removed. -/
def preprocess (s : String) : Chars :=
  (( handle_plus_syntax s).data).filter fun c => !isSpaceChar c

/-- Modelled from the spec: `parse(text, …)` as a fallible function.  The
error string of a bracket imbalance contains `"bracket"`; an unknown head
name yields `makeNode`'s `"unknown function …"` message.  The result must be
a macro tree, not a bare literal. -/
def parseFull (s : String) : Except String MTree :=
  let cs := preprocess s
  if cs.count '(' ≠ cs.count ')' then
    .error ("you entered " ++ toString (cs.count '(') ++ " opening and " ++
      toString (cs.count ')') ++ " closing brackets")
  else
    match parseRec cs with
    | .ok (.vtree t) => .ok t
    | .ok _ => .error "this expression is not a macro"
    | .error e => .error e

/-- Silent mode (`return_errors=False`): the parsed macro, or `None`. -/
def parse_silent (s : String) : Option MTree :=
  (parseFull s).toOption

/-- Diagnostic mode (`return_errors=True`): `None` on success, the
human-readable error string on failure. -/
def parse_diag (s : String) : Option String :=
  match parseFull s with
  | .ok _ => none
  | .error e => some e

/-! ## Macro instance and the re-entry guard (section 4.G) -/

/-- Modelled from the spec: the runtime state of a macro instance — the
parsed tree plus the running flag (re-entry guard).  The holding flag's
trajectory is externalised into the oracle consumed by `runM`. -/
structure Inst where
  tree : MTree
  running : Bool
deriving DecidableEq, Repr

/-- Modelled from the spec: `instance.run(sink)` with the re-entry guard.
If the running flag is set (a previous `run` on this instance is still
live), return immediately with no side effects; otherwise evaluate the tree
and clear the flag on completion. -/
def Inst.run (S : Nat) (i : Inst) (sched : List Nat) (st : Store) :
    List Act × Inst × Store :=
  if i.running then ([], i, st)
  else
    let r := runM S i.tree sched st
    (r.1, { i with running := false }, r.2.2)

/-! ## GUI row widget (`src/keymapper/gtk/row.py`) -/

namespace Gtk

/-- Status-bar context id for keycode messages (`CTX_KEYCODE` in `row.py`). -/
def CTX_KEYCODE : Nat := 2

/-- Widgets a row interacts with, for tracking window focus. -/
inductive Widget where
  | characterInput
  | other (name : String)
deriving DecidableEq, Repr

/-- The observable state of a `Row` widget: the label of its keycode toggle
button and the text of its character entry (`row.py`, `put_together`). -/
structure RowState where
  keycodeLabel : String
  characterText : String
  changedClass : Bool
deriving DecidableEq, Repr

/-- The window-level state a `Row` touches: the custom mapping
(keycode → character), the status bar (context id, message) stack, the
focused widget, and the info log. -/
structure WindowState where
  customMapping : List (Int × String)
  statusBar : List (Nat × String)
  focus : Option Widget
  infoLog : List String
deriving DecidableEq, Repr

/-- `custom_mapping.get(keycode)`: the character mapped to a keycode. -/
def mappingGet (k : Int) : List (Int × String) → Option String
  | [] => none
  | (k', ch) :: rest => if k = k' then some ch else mappingGet k rest

/-- `custom_mapping.change(previous, new, character)` (the `Mapping`
collaborator is external to the provided sources): forget the previous
keycode's entry and map the new keycode to the character. -/
def mappingChange (previous : Option Int) (new : Int) (ch : String)
    (m : List (Int × String)) : List (Int × String) :=
  (new, ch) :: m.filter fun p => some p.1 ≠ previous ∧ p.1 ≠ new

/-- `Row.get_keycode` from `row.py`: the toggle-button label parsed as an
integer (`int(keycode)`; the label is only ever set from `str(keycode)`),
`None` when the label is empty. -/
def get_keycode (r : RowState) : Option Int :=
  if r.keycodeLabel = "" then none else toIntLit r.keycodeLabel.data

/-- `Row.get_character` from `row.py`: the entry text, `None` when empty. -/
def get_character (r : RowState) : Option String :=
  if r.characterText = "" then none else some r.characterText

/-- `Row.on_key_pressed` from `row.py`, lines 74–108: `newKeycode` is
`event.get_keycode()[1]`.  No input, an unchanged keycode, or a keycode
already claimed by the custom mapping return early; otherwise the status-bar
context is cleared, the label is updated, focus moves to the character entry,
the row is highlighted, and — when a character is present — the mapping is
updated. -/
def on_key_pressed (r : RowState) (w : WindowState) (newKeycode : Option Int) :
    RowState × WindowState :=
  let previous := get_keycode r
  let character := get_character r
  match newKeycode with
  | none => (r, w)
  | some nk =>
    if some nk = previous then (r, w)
    else if (mappingGet nk w.customMapping).isSome then
      let msg := "Keycode " ++ toString nk ++ " is already mapped"
      (r, { w with
        infoLog := w.infoLog ++ [msg],
        statusBar := w.statusBar ++ [(CTX_KEYCODE, msg)] })
    else
      let w1 : WindowState := { w with
        statusBar := w.statusBar.filter fun p => p.1 ≠ CTX_KEYCODE,
        focus := some .characterInput }
      let r1 : RowState := { r with keycodeLabel := toString nk, changedClass := true }
      match character with
      | none => (r1, w1)
      | some ch =>
          (r1, { w1 with customMapping := mappingChange previous nk ch w1.customMapping })

end Gtk

/-! ## Helper lemmas about traces -/

theorem countEmit_append (ty c : Nat) (v : Int) (a b : List Act) :
    countEmit ty c v (a ++ b) = countEmit ty c v a + countEmit ty c v b := by
  simp [countEmit, List.countP_append]

theorem countEmit_iterState (ty c : Nat) (v w : Int)
    (f : List Nat → Store → List Act × List Nat × Store)
    (h : ∀ s st, countEmit ty c v (f s st).1 = countEmit ty c w (f s st).1) :
    ∀ k s st, countEmit ty c v (iterState f k s st).1 =
      countEmit ty c w (iterState f k s st).1 := by
  intro k
  induction k with
  | zero => intro s st; simp [iterState, countEmit]
  | succ k ih =>
    intro s st
    simp only [iterState, countEmit_append]
    rw [h, ih]

theorem countEmit_flatten_replicate (ty c : Nat) (v : Int) (k : Nat) (l : List Act)
    (h : countEmit ty c v l = 0) :
    countEmit ty c v (List.flatten (List.replicate k l)) = 0 := by
  induction k with
  | zero => simp [countEmit]
  | succ k ih => simp [List.replicate_succ, countEmit_append, h, ih]

/-- A key balance statement for a single tree under every environment. -/
def KeyBalanced (t : MTree) : Prop :=
  ∀ S sched st c,
    countEmit EV_KEY c 1 (runM S t sched st).1 =
    countEmit EV_KEY c 0 (runM S t sched st).1

theorem keyBalanced_of_noEv (t : MTree) (hne : noEv t = true) : KeyBalanced t := by
  induction t with
  | key c' =>
    intro S sched st c
    by_cases h : c' = c <;> simp [runM, countEmit, List.countP, List.countP.go, h, EV_KEY]
  | rep n body ih =>
    intro S sched st c
    exact countEmit_iterState _ _ _ _ _ (fun s' st' => ih (by simpa [noEv] using hne) S s' st' c) n sched st
  | wait ms =>
    intro S sched st c
    simp [runM, countEmit, List.countP, List.countP.go]
  | holdE =>
    intro S sched st c
    simp [runM, countEmit, List.countP, List.countP.go]
  | holdKey c' =>
    intro S sched st c
    by_cases h : c' = c <;> simp [runM, countEmit, List.countP, List.countP.go, h, EV_KEY]
  | holdB body ih =>
    intro S sched st c
    exact countEmit_iterState _ _ _ _ _ (fun s' st' => ih (by simpa [noEv] using hne) S s' st' c) _ sched.tail st
  | modi c' body ih =>
    intro S sched st c
    have hb := ih (by simpa [noEv] using hne) S sched st c
    by_cases h : c' = c <;>
      simp [runM, countEmit, List.countP_cons, List.countP_append, h, EV_KEY] <;>
      simpa [countEmit] using hb
  | mouse d speed =>
    intro S sched st c
    have h1 : countEmit EV_KEY c 1 [Act.emit EV_REL (mouseAxis d speed).1 (mouseAxis d speed).2, Act.sleep S] = 0 := by
      simp [countEmit, List.countP, List.countP.go, EV_REL, EV_KEY]
    have h0 : countEmit EV_KEY c 0 [Act.emit EV_REL (mouseAxis d speed).1 (mouseAxis d speed).2, Act.sleep S] = 0 := by
      simp [countEmit, List.countP, List.countP.go, EV_REL, EV_KEY]
    simp only [runM]
    rw [countEmit_flatten_replicate _ _ _ _ _ h1, countEmit_flatten_replicate _ _ _ _ _ h0]
  | wheel d speed =>
    intro S sched st c
    have h1 : countEmit EV_KEY c 1 [Act.emit EV_REL (wheelAxis d).1 (wheelAxis d).2, Act.sleep S] = 0 := by
      simp [countEmit, List.countP, List.countP.go, EV_REL, EV_KEY]
    have h0 : countEmit EV_KEY c 0 [Act.emit EV_REL (wheelAxis d).1 (wheelAxis d).2, Act.sleep S] = 0 := by
      simp [countEmit, List.countP, List.countP.go, EV_REL, EV_KEY]
    simp only [runM]
    rw [countEmit_flatten_replicate _ _ _ _ _ h1, countEmit_flatten_replicate _ _ _ _ _ h0]
  | ev ty code v =>
    simp [noEv] at hne
  | setv n v =>
    intro S sched st c
    simp [runM, countEmit, List.countP, List.countP.go]
  | ifeq n v thenB elseB ihT ihE =>
    intro S sched st c
    simp only [noEv, Bool.and_eq_true] at hne
    simp only [runM]
    by_cases h : storeGet n st = some v
    · simpa [h] using ihT hne.1 S sched st c
    · simpa [h] using ihE hne.2 S sched st c
  | seq a b iha ihb =>
    intro S sched st c
    simp only [noEv, Bool.and_eq_true] at hne
    simp only [runM, countEmit_append]
    rw [iha hne.1 S sched st c, ihb hne.2 S _ _ c]
  | nop =>
    intro S sched st c
    simp [runM, countEmit, List.countP, List.countP.go]

theorem mem_iterState (f : List Nat → Store → List Act × List Nat × Store)
    (P : Act → Prop) (h : ∀ s st a, a ∈ (f s st).1 → P a) :
    ∀ k s st a, a ∈ (iterState f k s st).1 → P a := by
  intro k
  induction k with
  | zero => intro s st a ha; simp [iterState] at ha
  | succ k ih =>
    intro s st a ha
    simp only [iterState, List.mem_append] at ha
    rcases ha with ha | ha
    · exact h _ _ _ ha
    · exact ih _ _ _ ha

theorem capSet_superset_of_noHWheel (t : MTree) (hw : noHWheel t = true) :
    ∀ S sched st ty c v, Act.emit ty c v ∈ (runM S t sched st).1 →
      (ty, c) ∈ capSet t := by
  induction t with
  | key c' =>
    intro S sched st ty c v hm
    simp only [runM, List.mem_cons, List.mem_singleton] at hm
    rcases hm with h | h | h | h | h <;> simp_all [capSet]
  | rep n body ih =>
    intro S sched st ty c v hm
    simp only [capSet]
    exact mem_iterState _ (fun a => ∀ ty c v, a = Act.emit ty c v → (ty, c) ∈ capSet body)
      (fun s' st' a ha ty' c' v' he => by subst he; exact ih (by simpa [noHWheel] using hw) S s' st' ty' c' v' ha)
      n sched st _ hm ty c v rfl
  | wait ms =>
    intro S sched st ty c v hm
    simp [runM] at hm
  | holdE =>
    intro S sched st ty c v hm
    simp [runM] at hm
  | holdKey c' =>
    intro S sched st ty c v hm
    simp only [runM, List.mem_cons, List.mem_singleton] at hm
    rcases hm with h | h | h <;> simp_all [capSet]
  | holdB body ih =>
    intro S sched st ty c v hm
    simp only [capSet]
    exact mem_iterState _ (fun a => ∀ ty c v, a = Act.emit ty c v → (ty, c) ∈ capSet body)
      (fun s' st' a ha ty' c' v' he => by subst he; exact ih (by simpa [noHWheel] using hw) S s' st' ty' c' v' ha)
      _ sched.tail st _ hm ty c v rfl
  | modi c' body ih =>
    intro S sched st ty c v hm
    have hwb : noHWheel body = true := by simpa [noHWheel] using hw
    have hm' : Act.emit ty c v ∈
        Act.emit EV_KEY c' 1 :: ((runM S body sched st).1 ++ [Act.emit EV_KEY c' 0]) := hm
    rcases List.mem_cons.mp hm' with h | hmm
    · injection h with h1 h2 h3
      subst h1; subst h2
      simp [capSet]
    · rcases List.mem_append.mp hmm with h | h
      · exact List.mem_cons_of_mem _ (ih hwb S sched st ty c v h)
      · rw [List.mem_singleton] at h
        injection h with h1 h2 h3
        subst h1; subst h2
        simp [capSet]
  | mouse d speed =>
    intro S sched st ty c v hm
    simp only [runM, List.mem_flatten] at hm
    obtain ⟨l, hl, hal⟩ := hm
    have := List.eq_of_mem_replicate hl
    subst this
    simp only [List.mem_cons, List.mem_singleton] at hal
    rcases hal with h | h | h <;> cases d <;> simp_all [capSet, mouseAxis, EV_REL, REL_X, REL_Y, REL_WHEEL]
  | wheel d speed =>
    intro S sched st ty c v hm
    simp only [runM, List.mem_flatten] at hm
    obtain ⟨l, hl, hal⟩ := hm
    have := List.eq_of_mem_replicate hl
    subst this
    simp only [List.mem_cons, List.mem_singleton] at hal
    cases d
    · rcases hal with h | h | h <;> simp_all [capSet, wheelAxis, EV_REL, REL_X, REL_Y, REL_WHEEL]
    · rcases hal with h | h | h <;> simp_all [capSet, wheelAxis, EV_REL, REL_X, REL_Y, REL_WHEEL]
    · simp [noHWheel] at hw
    · simp [noHWheel] at hw
  | ev ty' code' v' =>
    intro S sched st ty c v hm
    simp only [runM, List.mem_singleton] at hm
    simp_all [capSet]
  | setv n v' =>
    intro S sched st ty c v hm
    simp [runM] at hm
  | ifeq n v' thenB elseB ihT ihE =>
    intro S sched st ty c v hm
    simp only [noHWheel, Bool.and_eq_true] at hw
    simp only [runM] at hm
    simp only [capSet, List.mem_append]
    by_cases h : storeGet n st = some v'
    · simp only [h, if_pos rfl] at hm
      exact Or.inl (ihT hw.1 S sched st ty c v hm)
    · rw [if_neg h] at hm
      exact Or.inr (ihE hw.2 S sched st ty c v hm)
  | seq a b iha ihb =>
    intro S sched st ty c v hm
    simp only [noHWheel, Bool.and_eq_true] at hw
    simp only [runM, List.mem_append] at hm
    simp only [capSet, List.mem_append]
    rcases hm with h | h
    · exact Or.inl (iha hw.1 S sched st ty c v h)
    · exact Or.inr (ihb hw.2 S _ _ ty c v h)
  | nop =>
    intro S sched st ty c v hm
    simp [runM] at hm

/-! ## Claim C1 -/

/-- C1 (amended): for every macro tree that contains no raw-event `e` node,
under every holding-flag schedule, store and keystroke interval, each emitted
key-down `(KEY, c, 1)` is matched by exactly one emitted key-up
`(KEY, c, 0)` — the two counts coincide for every code; and unconditionally,
every execution of a `k(sym)` node emits exactly one `(KEY, code, 1)`
followed by exactly one `(KEY, code, 0)`.  (The restriction to `e`-free
trees is forced by `C1_counterexample`: the raw-event op can emit an
unmatched key-down by design, cf. `test_event_1`.) -/
theorem C1_key_updown_balance :
    (∀ t : MTree, noEv t = true → ∀ S sched st c,
        countEmit EV_KEY c 1 (runM S t sched st).1 =
        countEmit EV_KEY c 0 (runM S t sched st).1) ∧
    (∀ S c sched st,
        runM S (.key c) sched st =
          ([.emit EV_KEY c 1, .sleep S, .emit EV_KEY c 0, .sleep S], sched, st)) :=
  ⟨keyBalanced_of_noEv, fun _ _ _ _ => rfl⟩

/-- C1 witness: the balance theorem applied to the concrete `e`-free macro
`k(1).h(k(a))` with a three-iteration hold schedule. -/
theorem C1_key_updown_balance_witness :
    noEv (.seq (.key 2) (.holdB (.key 30))) = true ∧
    countEmit EV_KEY 30 1 (runM 10 (.seq (.key 2) (.holdB (.key 30))) [3] []).1 =
    countEmit EV_KEY 30 0 (runM 10 (.seq (.key 2) (.holdB (.key 30))) [3] []).1 :=
  ⟨by decide, C1_key_updown_balance.1 _ (by decide) 10 [3] [] 30⟩

/-- C1 counterexample: the macro `e(EV_KEY, KEY_A, 1)` — the source of
`test_event_1`, which asserts its output is exactly `[(EV_KEY, code_a, 1)]` —
emits one key-down for code 30 and no key-up at all, so the claim's
universal down/up matching fails as stated. -/
theorem C1_counterexample :
    parse_silent "e(EV_KEY, KEY_A, 1)" = some (.ev 1 30 1) ∧
    eventsOf (runM 10 (.ev 1 30 1) [] []).1 = [(EV_KEY, 30, 1)] ∧
    countEmit EV_KEY 30 1 (runM 10 (.ev 1 30 1) [] []).1 = 1 ∧
    countEmit EV_KEY 30 0 (runM 10 (.ev 1 30 1) [] []).1 = 0 := by
  decide

/-! ## Claim C2 -/

/-- C2 (amended): `capabilities()` is a function of the tree alone, and for
every macro tree that contains no `wheel` node with a horizontal direction,
every `(event type, code)` pair emitted during any execution (any schedule,
store and keystroke interval) is contained in `capSet`; moreover for every
`mouse(dir, speed)` and `wheel(dir, speed)` node the advertised relative
codes include all of `REL_X`, `REL_Y` and `REL_WHEEL` regardless of the
direction.  (The horizontal-wheel restriction is forced by
`C2_counterexample`: `wheel(left, _)` emits on `REL_HWHEEL`, which the
capability analysis does not advertise.) -/
theorem C2_capabilities_superset :
    (∀ t : MTree, noHWheel t = true → ∀ S sched st ty c v,
        Act.emit ty c v ∈ (runM S t sched st).1 → (ty, c) ∈ capSet t) ∧
    (∀ (d : Dir) (speed : Nat),
        (EV_REL, REL_X) ∈ capSet (.mouse d speed) ∧
        (EV_REL, REL_Y) ∈ capSet (.mouse d speed) ∧
        (EV_REL, REL_WHEEL) ∈ capSet (.mouse d speed) ∧
        (EV_REL, REL_X) ∈ capSet (.wheel d speed) ∧
        (EV_REL, REL_Y) ∈ capSet (.wheel d speed) ∧
        (EV_REL, REL_WHEEL) ∈ capSet (.wheel d speed)) := by
  refine ⟨capSet_superset_of_noHWheel, ?_⟩
  intro d speed
  cases d <;> simp [capSet]

/-- C2 witness: the superset theorem applied to the concrete macro
`mouse(up, 4)` and its emission `(EV_REL, REL_Y, -4)` from `test_mouse`. -/
theorem C2_capabilities_superset_witness :
    Act.emit EV_REL REL_Y (-4) ∈ (runM 10 (.mouse .up 4) [1] []).1 ∧
    (EV_REL, REL_Y) ∈ capSet (.mouse .up 4) :=
  ⟨by decide, C2_capabilities_superset.1 (.mouse .up 4) (by decide) 10 [1] [] EV_REL REL_Y (-4) (by decide)⟩

/-- C2 counterexample: `wheel(left, 3)` — from `test_mouse`, which asserts
the emission `(EV_REL, REL_HWHEEL, 1)` — emits a pair that its capability
set does not contain, so capabilities are not a superset of all emissions
as the claim states. -/
theorem C2_counterexample :
    parse_silent "wheel(left, 3)" = some (.wheel .left 3) ∧
    Act.emit EV_REL REL_HWHEEL 1 ∈ (runM 10 (.wheel .left 3) [1] []).1 ∧
    (EV_REL, REL_HWHEEL) ∉ capSet (.wheel .left 3) := by
  decide

/-! ## Claim C3 -/

/-- C3 (amended): calling `run` while a previous `run` on the same instance
is live (the running flag is set) returns immediately with no events and no
state change; after a completed run the flag is clear and a subsequent `run`
executes normally, emitting the same event sequence as the first whenever
the completed run left the shared variable store unchanged (the same
holding-flag schedule being supplied).  (The store-preservation proviso is
forced by `C3_counterexample`: a macro whose `set` feeds its own `ifeq`
emits a different sequence on the second run.) -/
theorem C3_reentry_guard :
    (∀ (S : Nat) (i : Inst) (sched : List Nat) (st : Store),
        i.running = true → Inst.run S i sched st = ([], i, st)) ∧
    (∀ (S : Nat) (i : Inst) (sched : List Nat) (st : Store),
        i.running = false →
          (Inst.run S i sched st).2.1.running = false ∧
          ((Inst.run S i sched st).2.2 = st →
            (Inst.run S (Inst.run S i sched st).2.1 sched (Inst.run S i sched st).2.2).1 =
              (Inst.run S i sched st).1)) := by
  constructor
  · intro S i sched st h
    simp [Inst.run, h]
  · intro S i sched st h
    constructor
    · simp [Inst.run, h]
    · intro hst
      simp only [Inst.run, h, if_neg, Bool.false_eq_true, if_false] at hst ⊢
      rw [hst]

/-- C3 witness: the guard theorem applied to a concrete armed instance
(`running = true` gives a silent no-op) and to a concrete idle instance. -/
theorem C3_reentry_guard_witness :
    Inst.run 10 ⟨.key 5, true⟩ [] [] = ([], ⟨.key 5, true⟩, []) ∧
    (Inst.run 10 ⟨.key 5, false⟩ [] []).2.1.running = false :=
  ⟨C3_reentry_guard.1 10 ⟨.key 5, true⟩ [] [] rfl,
   (C3_reentry_guard.2 10 ⟨.key 5, false⟩ [] [] rfl).1⟩

/-- C3 counterexample: for `ifeq(foo, 2, k(a), k(b)).set(foo, 2)` the first
completed run (from an empty store) emits the `b` pair and writes `foo = 2`,
so the next run emits the `a` pair — the second run does not repeat the
first run's event sequence as the claim states. -/
theorem C3_counterexample :
    (let t : MTree :=
      .seq (.ifeq "foo".data (.int 2) (.key 30) (.key 48)) (.setv "foo".data (.int 2));
     parse_silent "ifeq(foo, 2, k(a), k(b)).set(foo, 2)" = some t ∧
     eventsOf (Inst.run 10 ⟨t, false⟩ [] []).1 = [(EV_KEY, 48, 1), (EV_KEY, 48, 0)] ∧
     eventsOf (Inst.run 10 (Inst.run 10 ⟨t, false⟩ [] []).2.1 []
         (Inst.run 10 ⟨t, false⟩ [] []).2.2).1 = [(EV_KEY, 30, 1), (EV_KEY, 30, 0)] ∧
     eventsOf (Inst.run 10 (Inst.run 10 ⟨t, false⟩ [] []).2.1 []
         (Inst.run 10 ⟨t, false⟩ [] []).2.2).1 ≠ eventsOf (Inst.run 10 ⟨t, false⟩ [] []).1) := by
  decide

/-! ## Claim C4 -/

/-- C4: `a+b+c+d` parses (through the plus sugar) to
`m(a,m(b,m(c,m(d,h()))))`, and running it emits the four key-downs for
a, b, c, d in that order (value 1) followed by the four key-ups in exactly
reverse order d, c, b, a (value 0), under every schedule, store and
keystroke interval — the press phase precedes the hold, the release phase
follows it. -/
theorem C4_plus_press_release_order :
    parse_silent "a + b + c + d" =
      some (.modi 30 (.modi 48 (.modi 46 (.modi 32 .holdE)))) ∧
    ∀ (S : Nat) (sched : List Nat) (st : Store),
      eventsOf (runM S (.modi 30 (.modi 48 (.modi 46 (.modi 32 .holdE)))) sched st).1 =
        [(EV_KEY, 30, 1), (EV_KEY, 48, 1), (EV_KEY, 46, 1), (EV_KEY, 32, 1),
         (EV_KEY, 32, 0), (EV_KEY, 46, 0), (EV_KEY, 48, 0), (EV_KEY, 30, 0)] :=
  ⟨by decide, fun _ _ _ => rfl⟩

/-! ## Claim C8 -/

/-- C8: when the holding flag reads false at entry (the macro was never
armed with `press_key`, i.e. the oracle grants zero iterations), `h(body)`
never runs its body and `h()` is a no-op; concretely, running
`k(1).h(k(a)).k(3)` or `k(1).h().k(3)` with an unarmed schedule emits
exactly down/up for 1 then down/up for 3 and nothing else. -/
theorem C8_hold_without_press :
    (∀ (S : Nat) (body : MTree) (sched : List Nat) (st : Store),
        runM S (.holdB body) (0 :: sched) st = ([], sched, st) ∧
        runM S (.holdB body) [] st = ([], [], st)) ∧
    (∀ (S : Nat) (sched : List Nat) (st : Store),
        runM S .holdE sched st = ([], sched, st)) ∧
    parse_silent "k(1).h(k(a)).k(3)" =
      some (.seq (.key 2) (.seq (.holdB (.key 30)) (.key 4))) ∧
    (∀ (S : Nat) (st : Store),
        eventsOf (runM S (.seq (.key 2) (.seq (.holdB (.key 30)) (.key 4))) [] st).1 =
          [(EV_KEY, 2, 1), (EV_KEY, 2, 0), (EV_KEY, 4, 1), (EV_KEY, 4, 0)]) ∧
    parse_silent "k(1).h().k(3)" = some (.seq (.key 2) (.seq .holdE (.key 4))) ∧
    (∀ (S : Nat) (st : Store),
        eventsOf (runM S (.seq (.key 2) (.seq .holdE (.key 4))) [] st).1 =
          [(EV_KEY, 2, 1), (EV_KEY, 2, 0), (EV_KEY, 4, 1), (EV_KEY, 4, 0)]) :=
  ⟨fun _ _ _ _ => ⟨rfl, rfl⟩, fun _ _ _ => rfl, by decide, fun _ _ => rfl,
   by decide, fun _ _ => rfl⟩

/-! ## Claim C9 -/

theorem sleepSum_append (a b : List Act) :
    sleepSum (a ++ b) = sleepSum a + sleepSum b := by
  simp [sleepSum]

theorem sleepSum_iterState (f : List Nat → Store → List Act × List Nat × Store)
    (m : Nat) (h : ∀ s st, sleepSum (f s st).1 = m) :
    ∀ k s st, sleepSum (iterState f k s st).1 = k * m := by
  intro k
  induction k with
  | zero => intro s st; simp [iterState, sleepSum]
  | succ k ih =>
    intro s st
    simp only [iterState, sleepSum_append]
    rw [h, ih]
    ring

theorem runM_seq_fst (S : Nat) (a b : MTree) (sched : List Nat) (st : Store) :
    (runM S (.seq a b) sched st).1 =
      (runM S a sched st).1 ++
        (runM S b (runM S a sched st).2.1 (runM S a sched st).2.2).1 := rfl

theorem runM_rep_eq (S n : Nat) (body : MTree) (sched : List Nat) (st : Store) :
    runM S (.rep n body) sched st = iterState (runM S body) n sched st := rfl

theorem sleepSum_key (S c : Nat) (sched : List Nat) (st : Store) :
    sleepSum (runM S (.key c) sched st).1 = 2 * S := by
  simp [runM, sleepSum]
  ring

/-- C9: `r(20, k(k)).r(1, k(k))` parses to twenty-plus-one taps of the key
`k` and its execution emits exactly 21 consecutive down/up pairs for that
code; the total commanded suspension time is exactly `2·21·S` milliseconds
for the configured keystroke interval `S` — in particular it lies within the
±10% band around `2·21·S` asserted by `test_2` (wall-clock jitter of the
host scheduler is outside the model). -/
theorem C9_repeat_timing :
    parse_silent "r(20, k(k)).r(1, k(k))" =
      some (.seq (.rep 20 (.key 37)) (.rep 1 (.key 37))) ∧
    ∀ (S : Nat) (st : Store),
      eventsOf (runM S (.seq (.rep 20 (.key 37)) (.rep 1 (.key 37))) [] st).1 =
        (List.replicate 21 [((EV_KEY : Nat), (37 : Nat), (1 : Int)), (EV_KEY, 37, 0)]).flatten ∧
      sleepSum (runM S (.seq (.rep 20 (.key 37)) (.rep 1 (.key 37))) [] st).1 = 2 * 21 * S ∧
      9 * (2 * 21 * S) ≤ 10 * sleepSum (runM S (.seq (.rep 20 (.key 37)) (.rep 1 (.key 37))) [] st).1 ∧
      10 * sleepSum (runM S (.seq (.rep 20 (.key 37)) (.rep 1 (.key 37))) [] st).1 ≤ 11 * (2 * 21 * S) := by
  refine ⟨by decide, ?_⟩
  intro S st
  have hsum : sleepSum (runM S (.seq (.rep 20 (.key 37)) (.rep 1 (.key 37))) [] st).1 = 2 * 21 * S := by
    rw [runM_seq_fst, sleepSum_append, runM_rep_eq, runM_rep_eq,
      sleepSum_iterState _ (2 * S) (fun s stt => sleepSum_key S 37 s stt),
      sleepSum_iterState _ (2 * S) (fun s stt => sleepSum_key S 37 s stt)]
    ring
  exact ⟨rfl, hsum, by omega, by rw [hsum]; omega⟩

/-! ## Claim C10 -/

/-- C10: in `Row.on_key_pressed`, a `None` keycode, a keycode equal to the
row's previous keycode, or a keycode already present in the custom mapping
each return without changing the row's keycode label, the focused widget, or
any entry of the custom mapping; in the first two cases nothing changes at
all, and in the already-mapped case exactly one status-bar message is pushed
and one info line is logged. -/
theorem C10_on_key_pressed_noop :
    ∀ (r : Gtk.RowState) (w : Gtk.WindowState) (nk : Option Int),
      (nk = none → Gtk.on_key_pressed r w nk = (r, w)) ∧
      (∀ k : Int, nk = some k → some k = Gtk.get_keycode r →
        Gtk.on_key_pressed r w nk = (r, w)) ∧
      (∀ k : Int, nk = some k → some k ≠ Gtk.get_keycode r →
        (Gtk.mappingGet k w.customMapping).isSome = true →
        (Gtk.on_key_pressed r w nk).1 = r ∧
        (Gtk.on_key_pressed r w nk).2.customMapping = w.customMapping ∧
        (Gtk.on_key_pressed r w nk).2.focus = w.focus ∧
        (Gtk.on_key_pressed r w nk).2.statusBar =
          w.statusBar ++ [(Gtk.CTX_KEYCODE, "Keycode " ++ toString k ++ " is already mapped")] ∧
        (Gtk.on_key_pressed r w nk).2.infoLog =
          w.infoLog ++ ["Keycode " ++ toString k ++ " is already mapped"]) := by
  intro r w nk
  refine ⟨?_, ?_, ?_⟩
  · intro h
    subst h
    simp [Gtk.on_key_pressed]
  · intro k hk he
    subst hk
    simp [Gtk.on_key_pressed, ← he]
  · intro k hk hne hm
    subst hk
    simp [Gtk.on_key_pressed, hne, hm]

/-- C10 witness: the no-op theorem applied to a concrete row whose previous
keycode is 10 when keycode 5 — already mapped to "y" — is pressed. -/
theorem C10_on_key_pressed_noop_witness :
    (Gtk.on_key_pressed ⟨"10", "x", false⟩ ⟨[(5, "y")], [], none, []⟩ (some 5)).1 =
      (⟨"10", "x", false⟩ : Gtk.RowState) ∧
    (Gtk.on_key_pressed ⟨"10", "x", false⟩ ⟨[(5, "y")], [], none, []⟩ (some 5)).2.customMapping =
      [(5, "y")] :=
  ⟨((C10_on_key_pressed_noop ⟨"10", "x", false⟩ ⟨[(5, "y")], [], none, []⟩ (some 5)).2.2
      5 rfl (by decide) (by decide)).1,
   ((C10_on_key_pressed_noop ⟨"10", "x", false⟩ ⟨[(5, "y")], [], none, []⟩ (some 5)).2.2
      5 rfl (by decide) (by decide)).2.1⟩

/-! ## Claim C7 -/

theorem splitTopPlusAux_ne_nil (l : Chars) :
    ∀ d cur, splitTopPlusAux l d cur ≠ [] := by
  induction l with
  | nil => intro d cur; simp [splitTopPlusAux]
  | cons c rest ih =>
    intro d cur
    simp only [splitTopPlusAux]
    split
    · exact ih _ _
    · split
      · exact ih _ _
      · split
        · simp
        · exact ih _ _

theorem hasTopPlus_iff_chunks (l : Chars) :
    ∀ d cur, hasTopPlus l d = true ↔ 2 ≤ (splitTopPlusAux l d cur).length := by
  induction l with
  | nil =>
    intro d cur
    simp [hasTopPlus, splitTopPlusAux]
  | cons c rest ih =>
    intro d cur
    simp only [hasTopPlus, splitTopPlusAux]
    split
    · exact ih _ _
    · split
      · exact ih _ _
      · split
        · have h1 : 0 < (splitTopPlusAux rest d []).length :=
            List.length_pos.mpr (splitTopPlusAux_ne_nil rest d [])
          simp
          omega
        · exact ih _ _

/-- C7: `handle_plus_syntax` rewrites a top-level plus chain
`a + b + … + z` into the nested `m(a,m(b,…m(z,h())…))` form exactly when the
string contains a `'+'` outside any bracket (`hasTopPlus`) and both sides of
every such `'+'` — the trimmed top-level chunks — are non-empty tokens;
every other string, including `'+'`, `'a+'`, `'+b'`, `'k(a + b)'` and
strings without a top-level `'+'`, is returned unchanged. -/
theorem C7_handle_plus_characterization :
    (∀ s : String,
      (hasTopPlus s.data 0 = true ∧ (plusChunks s.data).all (· ≠ []) = true →
        handle_plus_syntax s = ⟨buildNest (plusChunks s.data)⟩) ∧
      (hasTopPlus s.data 0 = false ∨ (plusChunks s.data).all (· ≠ []) = false →
        handle_plus_syntax s = s)) ∧
    handle_plus_syntax "a + b" = "m(a,m(b,h()))" ∧
    handle_plus_syntax "a + b + c" = "m(a,m(b,m(c,h())))" ∧
    handle_plus_syntax " a+b+c " = "m(a,m(b,m(c,h())))" ∧
    handle_plus_syntax "+" = "+" ∧
    handle_plus_syntax "a+" = "a+" ∧
    handle_plus_syntax "+b" = "+b" ∧
    handle_plus_syntax "k(a + b)" = "k(a + b)" ∧
    handle_plus_syntax "a" = "a" ∧
    handle_plus_syntax "k(a)" = "k(a)" ∧
    handle_plus_syntax "" = "" := by
  refine ⟨?_, by decide, by decide, by decide, by decide, by decide, by decide,
    by decide, by decide, by decide, by decide⟩
  intro s
  have hlen : (plusChunks s.data).length = (splitTopPlusAux s.data 0 []).length := by
    simp [plusChunks]
  constructor
  · intro ⟨h1, h2⟩
    have h2' := (hasTopPlus_iff_chunks s.data 0 []).mp h1
    unfold handle_plus_syntax
    rw [if_pos]
    exact ⟨by omega, h2⟩
  · intro h
    unfold handle_plus_syntax
    rw [if_neg]
    intro ⟨hc1, hc2⟩
    rcases h with h | h
    · have h2 : 2 ≤ (splitTopPlusAux s.data 0 []).length := by omega
      have h3 := (hasTopPlus_iff_chunks s.data 0 []).mpr h2
      rw [h] at h3
      exact Bool.false_ne_true h3
    · rw [h] at hc2
      exact Bool.false_ne_true hc2

/-- C7 witness: the characterization applied to the applicable chain
`a + b` (rewritten) and to the inapplicable string `k(a + b)` (unchanged). -/
theorem C7_handle_plus_characterization_witness :
    handle_plus_syntax "a + b" = ⟨buildNest (plusChunks "a + b".data)⟩ ∧
    handle_plus_syntax "k(a + b)" = "k(a + b)" :=
  ⟨(C7_handle_plus_characterization.1 "a + b").1 ⟨by decide, by decide⟩,
   (C7_handle_plus_characterization.1 "k(a + b)").2 (Or.inl (by decide))⟩

/-! ## Alphabetic-token lemmas for the string-level parser claims -/

/-- Plain ASCII letters; the representative class of non-integer bare-word
tokens used in the universal parser claims. -/
def isPlainAlpha (c : Char) : Bool :=
  ('a' ≤ c && c ≤ 'z') || ('A' ≤ c && c ≤ 'Z')

theorem alphaFacts (c : Char) (h : isPlainAlpha c = true) :
    isWordChar c = true ∧ isSpaceChar c = false ∧ isDigitChar c = false ∧
    isQuoteChar c = false ∧ c ≠ '+' ∧ c ≠ '(' ∧ c ≠ ')' ∧ c ≠ ',' ∧
    c ≠ '.' ∧ c ≠ '-' := by
  simp only [isPlainAlpha, Bool.or_eq_true, Bool.and_eq_true, decide_eq_true_eq] at h
  have hne : ∀ x : Char, ¬ ('a' ≤ x) → ¬ ('A' ≤ x) → c ≠ x := by
    intro x hxa hxA he
    subst he
    rcases h with ⟨h1, _⟩ | ⟨h1, _⟩
    · exact hxa h1
    · exact hxA h1
  refine ⟨?_, ?_, ?_, ?_, hne _ (by decide) (by decide), hne _ (by decide) (by decide),
    hne _ (by decide) (by decide), hne _ (by decide) (by decide),
    hne _ (by decide) (by decide), hne _ (by decide) (by decide)⟩
  · simp only [isWordChar, Bool.or_eq_true, Bool.and_eq_true, decide_eq_true_eq]
    tauto
  · rw [← Bool.not_eq_true]
    simp only [isSpaceChar, Bool.or_eq_true, decide_eq_true_eq]
    rintro (((he | he) | he) | he) <;>
      exact hne _ (by decide) (by decide) he
  · rw [← Bool.not_eq_true]
    simp only [isDigitChar, Bool.and_eq_true, decide_eq_true_eq]
    rintro ⟨h0, h9⟩
    rcases h with ⟨h1, _⟩ | ⟨h1, _⟩
    · exact absurd (le_trans h1 h9) (by decide)
    · exact absurd (le_trans h1 h9) (by decide)
  · rw [← Bool.not_eq_true]
    simp only [isQuoteChar, Bool.or_eq_true, decide_eq_true_eq]
    rintro (he | he) <;> exact hne _ (by decide) (by decide) he

theorem takeWhile_all_append (p : Char → Bool) (t rest : Chars)
    (h : ∀ c ∈ t, p c = true) :
    (t ++ rest).takeWhile p = t ++ rest.takeWhile p := by
  induction t with
  | nil => simp
  | cons c ts ih =>
    simp only [List.cons_append, List.takeWhile_cons, h c (List.mem_cons_self c ts), if_true]
    rw [ih (fun c' hc' => h c' (List.mem_cons_of_mem _ hc'))]

theorem dropWhile_all_append (p : Char → Bool) (t rest : Chars)
    (h : ∀ c ∈ t, p c = true) :
    (t ++ rest).dropWhile p = rest.dropWhile p := by
  induction t with
  | nil => simp
  | cons c ts ih =>
    simp only [List.cons_append, List.dropWhile_cons, h c (List.mem_cons_self c ts), if_true]
    exact ih fun c' hc' => h c' (List.mem_cons_of_mem _ hc')

theorem takeWhile_eq_self_of (p : Char → Bool) (t : Chars)
    (h : ∀ c ∈ t, p c = true) : t.takeWhile p = t := by
  have := takeWhile_all_append p t [] h
  simpa using this

theorem dropWhile_eq_nil_of (p : Char → Bool) (t : Chars)
    (h : ∀ c ∈ t, p c = true) : t.dropWhile p = [] := by
  have := dropWhile_all_append p t [] h
  simpa using this

theorem dropWhile_eq_self_of (p : Char → Bool) (t : Chars)
    (h : ∀ c ∈ t, p c = false) : t.dropWhile p = t := by
  cases t with
  | nil => rfl
  | cons c ts => simp [List.dropWhile_cons, h c (List.mem_cons_self c ts)]

theorem trimChars_eq_self_of (t : Chars)
    (h : ∀ c ∈ t, isSpaceChar c = false) : trimChars t = t := by
  unfold trimChars
  rw [dropWhile_eq_self_of _ _ h, dropWhile_eq_self_of, List.reverse_reverse]
  intro c hc
  exact h c (List.mem_reverse.mp hc)

theorem stripQuotes_eq_self_of (t : Chars)
    (h : ∀ c ∈ t, isQuoteChar c = false) : stripQuotes t = t := by
  cases t with
  | nil => rfl
  | cons c ts =>
    have hc : isQuoteChar c = false := h c (List.mem_cons_self c ts)
    unfold stripQuotes
    cases hg : (c :: ts).getLast? with
    | none => simp [hc, hg]
    | some x =>
      have hx : isQuoteChar x = false := by
        obtain ⟨hnil', heq⟩ := List.mem_getLast?_eq_getLast (Option.mem_def.mpr hg)
        subst heq
        exact h _ (List.getLast_mem hnil')
      simp [hc, hg, hx]

theorem toIntLit_none_of_alpha (t : Chars) (hnil : t ≠ [])
    (hall : ∀ c ∈ t, isPlainAlpha c = true) : toIntLit t = none := by
  obtain ⟨c, ts, rfl⟩ := List.exists_cons_of_ne_nil hnil
  have hf := alphaFacts c (hall c (List.mem_cons_self c ts))
  unfold toIntLit
  rw [if_neg, if_neg]
  · rintro ⟨-, hd⟩
    have : isDigitChar c = true := by
      have := List.all_eq_true.mp hd c (List.mem_cons_self c ts)
      simpa using this
    rw [hf.2.2.1] at this
    exact Bool.false_ne_true this
  · simp only [List.head?_cons, Option.some.injEq]
    exact hf.2.2.2.2.2.2.2.2.2

theorem splitTopPlusAux_no_plus (l : Chars) (h : ∀ c ∈ l, c ≠ '+') :
    ∀ d cur, splitTopPlusAux l d cur = [cur.reverse ++ l] := by
  induction l with
  | nil => intro d cur; simp [splitTopPlusAux]
  | cons c rest ih =>
    intro d cur
    have hc : c ≠ '+' := h c (List.mem_cons_self c rest)
    have ht : ∀ c' ∈ rest, c' ≠ '+' := fun c' hc' => h c' (List.mem_cons_of_mem _ hc')
    simp only [splitTopPlusAux]
    split
    · rw [ih ht]
      simp
    · split
      · rw [ih ht]
        simp
      · split
        · rename_i hcD
          exact absurd hcD.1 hc
        · rw [ih ht]
          simp

/-- A string without any `'+'` is left unchanged by the plus-sugar rewrite. -/
theorem handle_plus_eq_self (s : String) (h : ∀ c ∈ s.data, c ≠ '+') :
    handle_plus_syntax s = s := by
  unfold handle_plus_syntax
  rw [if_neg]
  intro ⟨h2, _⟩
  rw [plusChunks, splitTopPlusAux_no_plus s.data h 0 []] at h2
  simp at h2

theorem splitBracket_skip_run (t : Chars)
    (h : ∀ c ∈ t, c ≠ '(' ∧ c ≠ ')') :
    ∀ rest d acc, splitBracket (t ++ rest) d acc = splitBracket rest d (t.reverse ++ acc) := by
  induction t with
  | nil => intro rest d acc; simp
  | cons c ts ih =>
    intro rest d acc
    have hc := h c (List.mem_cons_self c ts)
    have ht : ∀ c' ∈ ts, c' ≠ '(' ∧ c' ≠ ')' := fun c' hc' => h c' (List.mem_cons_of_mem _ hc')
    simp only [List.cons_append, splitBracket, hc.1, hc.2, if_false, List.append_eq]
    rw [ih ht]
    simp

theorem epAux_skip_run (t : Chars)
    (h : ∀ c ∈ t, c ≠ ',' ∧ c ≠ '(' ∧ c ≠ ')') :
    ∀ rest d cur, epAux (t ++ rest) d cur = epAux rest d (t.reverse ++ cur) := by
  induction t with
  | nil => intro rest d cur; simp
  | cons c ts ih =>
    intro rest d cur
    have hc := h c (List.mem_cons_self c ts)
    have ht : ∀ c' ∈ ts, c' ≠ ',' ∧ c' ≠ '(' ∧ c' ≠ ')' :=
      fun c' hc' => h c' (List.mem_cons_of_mem _ hc')
    simp only [List.cons_append, epAux, hc.1, hc.2.1, hc.2.2, if_false, false_and, List.append_eq]
    rw [ih ht]
    simp

theorem startsWithChars_self_append (pat suf : Chars) :
    startsWithChars pat (pat ++ suf) = true := by
  induction pat with
  | nil => simp [startsWithChars]
  | cons c ps ih => simp [startsWithChars, ih]

theorem occursIn_self_append (pat suf : Chars) : occursIn pat (pat ++ suf) = true := by
  cases hp : pat ++ suf with
  | nil =>
    have : pat = [] := by
      cases pat with
      | nil => rfl
      | cons c ps => simp at hp
    subst this
    simp [occursIn, startsWithChars]
  | cons c cs =>
    rw [occursIn, ← hp, startsWithChars_self_append]
    simp

theorem occursIn_append_left (pat pre l : Chars) (h : occursIn pat l = true) :
    occursIn pat (pre ++ l) = true := by
  induction pre with
  | nil => simpa using h
  | cons c ps ih =>
    simp only [List.cons_append, occursIn, Bool.or_eq_true]
    exact Or.inr ih

theorem occursIn_of_suffix (pat pre : Chars) : occursIn pat (pre ++ pat) = true := by
  have := occursIn_self_append pat []
  rw [List.append_nil] at this
  exact occursIn_append_left pat pre pat this

theorem parseRecF_ident (t : Chars) (hnil : t ≠ [])
    (hall : ∀ c ∈ t, isPlainAlpha c = true) (fuel : Nat) :
    parseRecF (fuel + 1) t = .ok (.vstr t) := by
  have hword : ∀ c ∈ t, isWordChar c = true := fun c hc => (alphaFacts c (hall c hc)).1
  have hquote : ∀ c ∈ t, isQuoteChar c = false := fun c hc => (alphaFacts c (hall c hc)).2.2.2.1
  simp only [parseRecF]
  rw [if_neg hnil, takeWhile_eq_self_of _ _ hword, dropWhile_eq_nil_of _ _ hword]
  rw [if_neg (by rintro ⟨-, hh⟩; simp at hh)]
  rw [toIntLit_none_of_alpha t hnil hall, stripQuotes_eq_self_of t hquote]

theorem mem_template {c : Char} {pre suf t : Chars} (hc : c ∈ pre ++ t ++ suf) :
    c ∈ pre ∨ c ∈ t ∨ c ∈ suf := by
  rcases List.mem_append.mp hc with h | h
  · rcases List.mem_append.mp h with h | h
    · exact Or.inl h
    · exact Or.inr (Or.inl h)
  · exact Or.inr (Or.inr h)

/-- Reduce the two `parse` modes to the recursive-descent result on a string
that the preprocessor leaves unchanged. -/
theorem parse_modes_of_parseRec_error (s : String) (e : String)
    (hplus : ∀ c ∈ s.data, c ≠ '+')
    (hspace : ∀ c ∈ s.data, isSpaceChar c = false)
    (hbal : s.data.count '(' = s.data.count ')')
    (herr : parseRec s.data = .error e) :
    parse_diag s = some e ∧ parse_silent s = none := by
  unfold parse_diag parse_silent parseFull preprocess
  rw [handle_plus_eq_self s hplus,
    List.filter_eq_self.mpr (fun c hc => by simp [hspace c hc]),
    if_neg (fun hne => hne hbal), herr]
  exact ⟨rfl, rfl⟩

theorem extract_params_ident (t : Chars)
    (hnc : ∀ c ∈ t, c ≠ ',' ∧ c ≠ '(' ∧ c ≠ ')')
    (hns : ∀ c ∈ t, isSpaceChar c = false) :
    _extract_params t = [t] := by
  unfold _extract_params
  rw [← List.append_nil t, epAux_skip_run t hnc]
  have h0 : epAux [] 0 (t.reverse ++ []) = [(t.reverse ++ []).reverse] := rfl
  rw [h0]
  simp [trimChars_eq_self_of t hns]

theorem parseCall_r (t : Chars) (f : Chars → Except String PVal)
    (hft : f t = .ok (.vstr t))
    (hka : f ['k', '(', 'a', ')'] = .ok (.vtree (.key 30)))
    (hep : _extract_params (t ++ [',', 'k', '(', 'a', ')']) = [t, ['k', '(', 'a', ')']]) :
    parseCall f ['r'] (t ++ [',', 'k', '(', 'a', ')']) [] =
      .error "r requires an integer repeat count" := by
  unfold parseCall
  rw [hep, List.mapM_cons, hft, List.mapM_cons, hka, List.mapM_nil]
  rfl

theorem parseRec_r_ident (t : Chars) (hnil : t ≠ [])
    (hall : ∀ c ∈ t, isPlainAlpha c = true) :
    parseRec ('r' :: '(' :: (t ++ [',', 'k', '(', 'a', ')', ')'])) =
      .error "r requires an integer repeat count" := by
  have hnb : ∀ c ∈ t, c ≠ '(' ∧ c ≠ ')' := fun c hc =>
    ⟨(alphaFacts c (hall c hc)).2.2.2.2.2.1, (alphaFacts c (hall c hc)).2.2.2.2.2.2.1⟩
  have hnc : ∀ c ∈ t, c ≠ ',' ∧ c ≠ '(' ∧ c ≠ ')' := fun c hc =>
    ⟨(alphaFacts c (hall c hc)).2.2.2.2.2.2.2.1, (alphaFacts c (hall c hc)).2.2.2.2.2.1,
     (alphaFacts c (hall c hc)).2.2.2.2.2.2.1⟩
  have hns : ∀ c ∈ t, isSpaceChar c = false := fun c hc => (alphaFacts c (hall c hc)).2.1
  have hsb : splitBracket (t ++ [',', 'k', '(', 'a', ')', ')']) 0 [] =
      some (t ++ [',', 'k', '(', 'a', ')'], []) := by
    rw [splitBracket_skip_run t hnb]
    have h0 : splitBracket [',', 'k', '(', 'a', ')', ')'] 0 (t.reverse ++ []) =
        some ((')' :: 'a' :: '(' :: 'k' :: ',' :: (t.reverse ++ [])).reverse, []) := rfl
    rw [h0]
    simp
  have hep : _extract_params (t ++ [',', 'k', '(', 'a', ')']) = [t, ['k', '(', 'a', ')']] := by
    unfold _extract_params
    rw [epAux_skip_run t hnc]
    have h0 : epAux [',', 'k', '(', 'a', ')'] 0 (t.reverse ++ []) =
        (t.reverse ++ []).reverse :: [['k', '(', 'a', ')']] := rfl
    rw [h0]
    simp [trimChars_eq_self_of t hns]
    rfl
  unfold parseRec
  unfold parseRecF
  rw [if_neg (by simp)]
  rw [if_pos ⟨by show (['r'] : Chars) ≠ []; simp, rfl⟩]
  have htl : (List.dropWhile isWordChar
      ('r' :: '(' :: (t ++ [',', 'k', '(', 'a', ')', ')']))).tail =
      t ++ [',', 'k', '(', 'a', ')', ')'] := rfl
  rw [htl, hsb]
  show parseCall (parseRecF (('r' :: '(' :: (t ++ [',', 'k', '(', 'a', ')', ')'])).length))
      ['r'] (t ++ [',', 'k', '(', 'a', ')']) [] = _
  have hflen : ('r' :: '(' :: (t ++ [',', 'k', '(', 'a', ')', ')'])).length =
      (t ++ [',', 'k', '(', 'a', ')', ')']).length + 1 + 1 := by simp
  rw [hflen]
  exact parseCall_r t _ (parseRecF_ident t hnil hall _) rfl hep

theorem parseRec_w_ident (t : Chars) (hnil : t ≠ [])
    (hall : ∀ c ∈ t, isPlainAlpha c = true) :
    parseRec ('w' :: '(' :: (t ++ [')'])) =
      .error "w requires an integer number of milliseconds" := by
  have hnb : ∀ c ∈ t, c ≠ '(' ∧ c ≠ ')' := fun c hc =>
    ⟨(alphaFacts c (hall c hc)).2.2.2.2.2.1, (alphaFacts c (hall c hc)).2.2.2.2.2.2.1⟩
  have hnc : ∀ c ∈ t, c ≠ ',' ∧ c ≠ '(' ∧ c ≠ ')' := fun c hc =>
    ⟨(alphaFacts c (hall c hc)).2.2.2.2.2.2.2.1, (alphaFacts c (hall c hc)).2.2.2.2.2.1,
     (alphaFacts c (hall c hc)).2.2.2.2.2.2.1⟩
  have hns : ∀ c ∈ t, isSpaceChar c = false := fun c hc => (alphaFacts c (hall c hc)).2.1
  have hsb : splitBracket (t ++ [')']) 0 [] = some (t, []) := by
    rw [splitBracket_skip_run t hnb]
    have h0 : splitBracket [')'] 0 (t.reverse ++ []) = some ((t.reverse ++ []).reverse, []) := rfl
    rw [h0]
    simp
  have hep := extract_params_ident t hnc hns
  unfold parseRec
  unfold parseRecF
  rw [if_neg (by simp)]
  rw [if_pos ⟨by show (['w'] : Chars) ≠ []; simp, rfl⟩]
  have htl : (List.dropWhile isWordChar ('w' :: '(' :: (t ++ [')']))).tail = t ++ [')'] := rfl
  rw [htl, hsb]
  show parseCall (parseRecF (('w' :: '(' :: (t ++ [')'])).length)) ['w'] t [] = _
  have hflen : ('w' :: '(' :: (t ++ [')'])).length = (t ++ [')']).length + 1 + 1 := by simp
  rw [hflen]
  unfold parseCall
  rw [hep, List.mapM_cons, parseRecF_ident t hnil hall _, List.mapM_nil]
  rfl

theorem parseRec_e_type_ident (t : Chars) (hnil : t ≠ [])
    (hall : ∀ c ∈ t, isPlainAlpha c = true) (hec : ecodeGet t = none) :
    parseRec ('e' :: '(' :: (t ++ [',', '1', ',', '1', ')'])) =
      .error ("unknown event code name: " ++ ⟨t⟩) := by
  have hnb : ∀ c ∈ t, c ≠ '(' ∧ c ≠ ')' := fun c hc =>
    ⟨(alphaFacts c (hall c hc)).2.2.2.2.2.1, (alphaFacts c (hall c hc)).2.2.2.2.2.2.1⟩
  have hnc : ∀ c ∈ t, c ≠ ',' ∧ c ≠ '(' ∧ c ≠ ')' := fun c hc =>
    ⟨(alphaFacts c (hall c hc)).2.2.2.2.2.2.2.1, (alphaFacts c (hall c hc)).2.2.2.2.2.1,
     (alphaFacts c (hall c hc)).2.2.2.2.2.2.1⟩
  have hns : ∀ c ∈ t, isSpaceChar c = false := fun c hc => (alphaFacts c (hall c hc)).2.1
  have hsb : splitBracket (t ++ [',', '1', ',', '1', ')']) 0 [] =
      some (t ++ [',', '1', ',', '1'], []) := by
    rw [splitBracket_skip_run t hnb]
    have h0 : splitBracket [',', '1', ',', '1', ')'] 0 (t.reverse ++ []) =
        some (('1' :: ',' :: '1' :: ',' :: (t.reverse ++ [])).reverse, []) := rfl
    rw [h0]
    simp
  have hep : _extract_params (t ++ [',', '1', ',', '1']) = [t, ['1'], ['1']] := by
    unfold _extract_params
    rw [epAux_skip_run t hnc]
    have h0 : epAux [',', '1', ',', '1'] 0 (t.reverse ++ []) =
        (t.reverse ++ []).reverse :: [['1'], ['1']] := rfl
    rw [h0]
    simp [trimChars_eq_self_of t hns]
    rfl
  unfold parseRec
  unfold parseRecF
  rw [if_neg (by simp)]
  rw [if_pos ⟨by show (['e'] : Chars) ≠ []; simp, rfl⟩]
  have htl : (List.dropWhile isWordChar ('e' :: '(' :: (t ++ [',', '1', ',', '1', ')']))).tail =
      t ++ [',', '1', ',', '1', ')'] := rfl
  rw [htl, hsb]
  show parseCall (parseRecF (('e' :: '(' :: (t ++ [',', '1', ',', '1', ')'])).length))
      ['e'] (t ++ [',', '1', ',', '1']) [] = _
  have hflen : ('e' :: '(' :: (t ++ [',', '1', ',', '1', ')'])).length =
      (t ++ [',', '1', ',', '1', ')']).length + 1 + 1 := by simp
  rw [hflen]
  unfold parseCall
  rw [hep, List.mapM_cons, parseRecF_ident t hnil hall _, List.mapM_cons, List.mapM_cons,
    List.mapM_nil]
  have h1 : parseRecF ((t ++ [',', '1', ',', '1', ')']).length + 1 + 1) ['1'] =
      .ok (.vint 1) := rfl
  rw [h1]
  show makeNode ['e'] [.vstr t, .vint 1, .vint 1] >>= _ = _
  have hre : resolveEcode (.vstr t) = .error ("unknown event code name: " ++ ⟨t⟩) := by
    have h0 : resolveEcode (.vstr t) =
        (match ecodeGet t with
          | some c => Except.ok c
          | none => Except.error ("unknown event code name: " ++ ⟨t⟩)) := rfl
    rw [h0, hec]
  have hmk : makeNode ['e'] [.vstr t, .vint 1, .vint 1] =
      .error ("unknown event code name: " ++ ⟨t⟩) := by
    have h0 : makeNode ['e'] [.vstr t, .vint 1, .vint 1] =
        resolveEcode (.vstr t) >>= (fun a =>
          resolveEcode (.vint 1) >>= fun b => pure (MTree.ev a b 1)) := rfl
    rw [h0, hre]
    rfl
  rw [hmk]
  rfl

theorem parseRec_e_value_ident (t : Chars) (hnil : t ≠ [])
    (hall : ∀ c ∈ t, isPlainAlpha c = true) :
    parseRec ('e' :: '(' :: '1' :: ',' :: '1' :: ',' :: (t ++ [')'])) =
      .error "e requires an integer value" := by
  have hnb : ∀ c ∈ t, c ≠ '(' ∧ c ≠ ')' := fun c hc =>
    ⟨(alphaFacts c (hall c hc)).2.2.2.2.2.1, (alphaFacts c (hall c hc)).2.2.2.2.2.2.1⟩
  have hnc : ∀ c ∈ t, c ≠ ',' ∧ c ≠ '(' ∧ c ≠ ')' := fun c hc =>
    ⟨(alphaFacts c (hall c hc)).2.2.2.2.2.2.2.1, (alphaFacts c (hall c hc)).2.2.2.2.2.1,
     (alphaFacts c (hall c hc)).2.2.2.2.2.2.1⟩
  have hns : ∀ c ∈ t, isSpaceChar c = false := fun c hc => (alphaFacts c (hall c hc)).2.1
  have hsb : splitBracket ('1' :: ',' :: '1' :: ',' :: (t ++ [')'])) 0 [] =
      some ('1' :: ',' :: '1' :: ',' :: t, []) := by
    have h0 : splitBracket ('1' :: ',' :: '1' :: ',' :: (t ++ [')'])) 0 [] =
        splitBracket (t ++ [')']) 0 [',', '1', ',', '1'] := rfl
    rw [h0, splitBracket_skip_run t hnb]
    have h1 : splitBracket [')'] 0 (t.reverse ++ [',', '1', ',', '1']) =
        some ((t.reverse ++ [',', '1', ',', '1']).reverse, []) := rfl
    rw [h1]
    simp
  have hep : _extract_params ('1' :: ',' :: '1' :: ',' :: t) = [['1'], ['1'], t] := by
    unfold _extract_params
    have h0 : epAux ('1' :: ',' :: '1' :: ',' :: t) 0 [] =
        ['1'] :: ['1'] :: epAux t 0 [] := rfl
    rw [h0, ← List.append_nil t, epAux_skip_run t hnc]
    have h1 : epAux [] 0 (t.reverse ++ []) = [(t.reverse ++ []).reverse] := rfl
    rw [h1]
    simp [trimChars_eq_self_of t hns]
    rfl
  unfold parseRec
  unfold parseRecF
  rw [if_neg (by simp)]
  rw [if_pos ⟨by show (['e'] : Chars) ≠ []; simp, rfl⟩]
  have htl : (List.dropWhile isWordChar
      ('e' :: '(' :: '1' :: ',' :: '1' :: ',' :: (t ++ [')']))).tail =
      '1' :: ',' :: '1' :: ',' :: (t ++ [')']) := rfl
  rw [htl, hsb]
  show parseCall (parseRecF (('e' :: '(' :: '1' :: ',' :: '1' :: ',' :: (t ++ [')'])).length))
      ['e'] ('1' :: ',' :: '1' :: ',' :: t) [] = _
  have hflen : ('e' :: '(' :: '1' :: ',' :: '1' :: ',' :: (t ++ [')'])).length =
      (t ++ [')']).length + 5 + 1 := by simp
  rw [hflen]
  unfold parseCall
  rw [hep, List.mapM_cons, List.mapM_cons]
  have h1 : parseRecF ((t ++ [')']).length + 5 + 1) ['1'] = .ok (.vint 1) := rfl
  rw [h1, List.mapM_cons]
  have h2 : parseRecF ((t ++ [')']).length + 5 + 1) t = .ok (.vstr t) :=
    parseRecF_ident t hnil hall _
  rw [h2, List.mapM_nil]
  rfl

theorem parseRec_unknown_head (t : Chars) (hnil : t ≠ [])
    (hall : ∀ c ∈ t, isPlainAlpha c = true)
    (hko : isKnownOp (lowerChars t) = false) :
    parseRec (t ++ ['(', 'a', ')']) = .error ("unknown function " ++ ⟨t⟩) := by
  have hword : ∀ c ∈ t, isWordChar c = true := fun c hc => (alphaFacts c (hall c hc)).1
  have htw : (t ++ ['(', 'a', ')']).takeWhile isWordChar = t := by
    rw [takeWhile_all_append _ _ _ hword]
    show t ++ ([] : Chars) = t
    simp
  have hdw : (t ++ ['(', 'a', ')']).dropWhile isWordChar = ['(', 'a', ')'] := by
    rw [dropWhile_all_append _ _ _ hword]
    rfl
  unfold parseRec
  unfold parseRecF
  rw [if_neg (by simp [hnil])]
  rw [htw, hdw]
  rw [if_pos ⟨hnil, rfl⟩]
  have hsb : splitBracket (['(', 'a', ')'] : Chars).tail 0 [] = some (['a'], []) := rfl
  rw [hsb]
  show parseCall (parseRecF ((t ++ ['(', 'a', ')']).length)) t ['a'] [] = _
  have hflen : (t ++ ['(', 'a', ')']).length = (t.length + 2) + 1 := by simp
  rw [hflen]
  unfold parseCall
  have hep : _extract_params ['a'] = [['a']] := rfl
  rw [hep, List.mapM_cons]
  have h1 : parseRecF (t.length + 2 + 1) ['a'] = .ok (.vstr ['a']) := rfl
  rw [h1, List.mapM_nil]
  have hmk : makeNode t [.vstr ['a']] = .error ("unknown function " ++ ⟨t⟩) := by
    unfold makeNode
    rw [if_pos (by rw [hko])]
  show makeNode t [.vstr ['a']] >>= _ = _
  rw [hmk]
  rfl

theorem parse_modes_r_ident (t : Chars) (hnil : t ≠ [])
    (hall : ∀ c ∈ t, isPlainAlpha c = true) :
    parse_diag ("r(" ++ ⟨t⟩ ++ ",k(a))") = some "r requires an integer repeat count" ∧
    parse_silent ("r(" ++ ⟨t⟩ ++ ",k(a))") = none := by
  have hs : ("r(" ++ ⟨t⟩ ++ ",k(a))" : String).data =
      ['r', '('] ++ t ++ [',', 'k', '(', 'a', ')', ')'] := rfl
  have hs2 : ("r(" ++ ⟨t⟩ ++ ",k(a))" : String).data =
      'r' :: '(' :: (t ++ [',', 'k', '(', 'a', ')', ')']) := rfl
  have hpo : t.count '(' = 0 := by
    rw [List.count_eq_zero]
    intro habs
    exact (alphaFacts _ (hall _ habs)).2.2.2.2.2.1 rfl
  have hpc : t.count ')' = 0 := by
    rw [List.count_eq_zero]
    intro habs
    exact (alphaFacts _ (hall _ habs)).2.2.2.2.2.2.1 rfl
  apply parse_modes_of_parseRec_error
  · intro c hc
    rw [hs] at hc
    rcases mem_template hc with h | h | h
    · simp at h
      rcases h with rfl | rfl <;> decide
    · exact (alphaFacts c (hall c h)).2.2.2.2.1
    · simp at h
      rcases h with rfl | rfl | rfl | rfl | rfl | rfl <;> decide
  · intro c hc
    rw [hs] at hc
    rcases mem_template hc with h | h | h
    · simp at h
      rcases h with rfl | rfl <;> decide
    · exact (alphaFacts c (hall c h)).2.1
    · simp at h
      rcases h with rfl | rfl | rfl | rfl | rfl | rfl <;> decide
  · rw [hs]
    simp only [List.count_append, hpo, hpc]
    decide
  · rw [hs2]
    exact parseRec_r_ident t hnil hall

theorem parse_modes_w_ident (t : Chars) (hnil : t ≠ [])
    (hall : ∀ c ∈ t, isPlainAlpha c = true) :
    parse_diag ("w(" ++ ⟨t⟩ ++ ")") = some "w requires an integer number of milliseconds" ∧
    parse_silent ("w(" ++ ⟨t⟩ ++ ")") = none := by
  have hs : ("w(" ++ ⟨t⟩ ++ ")" : String).data = ['w', '('] ++ t ++ [')'] := rfl
  have hs2 : ("w(" ++ ⟨t⟩ ++ ")" : String).data = 'w' :: '(' :: (t ++ [')']) := rfl
  have hpo : t.count '(' = 0 := by
    rw [List.count_eq_zero]
    intro habs
    exact (alphaFacts _ (hall _ habs)).2.2.2.2.2.1 rfl
  have hpc : t.count ')' = 0 := by
    rw [List.count_eq_zero]
    intro habs
    exact (alphaFacts _ (hall _ habs)).2.2.2.2.2.2.1 rfl
  apply parse_modes_of_parseRec_error
  · intro c hc
    rw [hs] at hc
    rcases mem_template hc with h | h | h
    · simp at h
      rcases h with rfl | rfl <;> decide
    · exact (alphaFacts c (hall c h)).2.2.2.2.1
    · simp at h
      subst h
      decide
  · intro c hc
    rw [hs] at hc
    rcases mem_template hc with h | h | h
    · simp at h
      rcases h with rfl | rfl <;> decide
    · exact (alphaFacts c (hall c h)).2.1
    · simp at h
      subst h
      decide
  · rw [hs]
    simp only [List.count_append, hpo, hpc]
    decide
  · rw [hs2]
    exact parseRec_w_ident t hnil hall

theorem parse_modes_e_type_ident (t : Chars) (hnil : t ≠ [])
    (hall : ∀ c ∈ t, isPlainAlpha c = true) (hec : ecodeGet t = none) :
    parse_diag ("e(" ++ ⟨t⟩ ++ ",1,1)") = some ("unknown event code name: " ++ ⟨t⟩) ∧
    parse_silent ("e(" ++ ⟨t⟩ ++ ",1,1)") = none := by
  have hs : ("e(" ++ ⟨t⟩ ++ ",1,1)" : String).data =
      ['e', '('] ++ t ++ [',', '1', ',', '1', ')'] := rfl
  have hs2 : ("e(" ++ ⟨t⟩ ++ ",1,1)" : String).data =
      'e' :: '(' :: (t ++ [',', '1', ',', '1', ')']) := rfl
  have hpo : t.count '(' = 0 := by
    rw [List.count_eq_zero]
    intro habs
    exact (alphaFacts _ (hall _ habs)).2.2.2.2.2.1 rfl
  have hpc : t.count ')' = 0 := by
    rw [List.count_eq_zero]
    intro habs
    exact (alphaFacts _ (hall _ habs)).2.2.2.2.2.2.1 rfl
  apply parse_modes_of_parseRec_error
  · intro c hc
    rw [hs] at hc
    rcases mem_template hc with h | h | h
    · simp at h
      rcases h with rfl | rfl <;> decide
    · exact (alphaFacts c (hall c h)).2.2.2.2.1
    · simp at h
      rcases h with rfl | rfl | rfl | rfl | rfl <;> decide
  · intro c hc
    rw [hs] at hc
    rcases mem_template hc with h | h | h
    · simp at h
      rcases h with rfl | rfl <;> decide
    · exact (alphaFacts c (hall c h)).2.1
    · simp at h
      rcases h with rfl | rfl | rfl | rfl | rfl <;> decide
  · rw [hs]
    simp only [List.count_append, hpo, hpc]
    decide
  · rw [hs2]
    exact parseRec_e_type_ident t hnil hall hec

theorem parse_modes_e_value_ident (t : Chars) (hnil : t ≠ [])
    (hall : ∀ c ∈ t, isPlainAlpha c = true) :
    parse_diag ("e(1,1," ++ ⟨t⟩ ++ ")") = some "e requires an integer value" ∧
    parse_silent ("e(1,1," ++ ⟨t⟩ ++ ")") = none := by
  have hs : ("e(1,1," ++ ⟨t⟩ ++ ")" : String).data =
      ['e', '(', '1', ',', '1', ','] ++ t ++ [')'] := rfl
  have hs2 : ("e(1,1," ++ ⟨t⟩ ++ ")" : String).data =
      'e' :: '(' :: '1' :: ',' :: '1' :: ',' :: (t ++ [')']) := rfl
  have hpo : t.count '(' = 0 := by
    rw [List.count_eq_zero]
    intro habs
    exact (alphaFacts _ (hall _ habs)).2.2.2.2.2.1 rfl
  have hpc : t.count ')' = 0 := by
    rw [List.count_eq_zero]
    intro habs
    exact (alphaFacts _ (hall _ habs)).2.2.2.2.2.2.1 rfl
  apply parse_modes_of_parseRec_error
  · intro c hc
    rw [hs] at hc
    rcases mem_template hc with h | h | h
    · simp at h
      rcases h with rfl | rfl | rfl | rfl | rfl | rfl <;> decide
    · exact (alphaFacts c (hall c h)).2.2.2.2.1
    · simp at h
      subst h
      decide
  · intro c hc
    rw [hs] at hc
    rcases mem_template hc with h | h | h
    · simp at h
      rcases h with rfl | rfl | rfl | rfl | rfl | rfl <;> decide
    · exact (alphaFacts c (hall c h)).2.1
    · simp at h
      subst h
      decide
  · rw [hs]
    simp only [List.count_append, hpo, hpc]
    decide
  · rw [hs2]
    exact parseRec_e_value_ident t hnil hall

theorem parse_modes_unknown_head (t : Chars) (hnil : t ≠ [])
    (hall : ∀ c ∈ t, isPlainAlpha c = true)
    (hko : isKnownOp (lowerChars t) = false) :
    parse_diag (⟨t⟩ ++ "(a)") = some ("unknown function " ++ ⟨t⟩) ∧
    parse_silent (⟨t⟩ ++ "(a)") = none := by
  have hs : ((⟨t⟩ ++ "(a)" : String)).data = [] ++ t ++ ['(', 'a', ')'] := by simp
  have hs2 : ((⟨t⟩ ++ "(a)" : String)).data = t ++ ['(', 'a', ')'] := rfl
  have hpo : t.count '(' = 0 := by
    rw [List.count_eq_zero]
    intro habs
    exact (alphaFacts _ (hall _ habs)).2.2.2.2.2.1 rfl
  have hpc : t.count ')' = 0 := by
    rw [List.count_eq_zero]
    intro habs
    exact (alphaFacts _ (hall _ habs)).2.2.2.2.2.2.1 rfl
  apply parse_modes_of_parseRec_error
  · intro c hc
    rw [hs2] at hc
    rcases List.mem_append.mp hc with h | h
    · exact (alphaFacts c (hall c h)).2.2.2.2.1
    · simp at h
      rcases h with rfl | rfl | rfl <;> decide
  · intro c hc
    rw [hs2] at hc
    rcases List.mem_append.mp hc with h | h
    · exact (alphaFacts c (hall c h)).2.1
    · simp at h
      rcases h with rfl | rfl | rfl <;> decide
  · rw [hs2]
    simp only [List.count_append, hpo, hpc]
    decide
  · rw [hs2]
    exact parseRec_unknown_head t hnil hall hko

theorem parse_diag_bracket (s : String)
    (h : (preprocess s).count '(' ≠ (preprocess s).count ')') :
    ∃ e, parse_diag s = some e ∧ occursIn "bracket".data e.data = true := by
  have h0 : parseFull s = .error ("you entered " ++ toString ((preprocess s).count '(') ++
      " opening and " ++ toString ((preprocess s).count ')') ++ " closing brackets") := by
    simp only [parseFull]
    rw [if_pos h]
  refine ⟨"you entered " ++ toString ((preprocess s).count '(') ++
      " opening and " ++ toString ((preprocess s).count ')') ++ " closing brackets", ?_, ?_⟩
  · unfold parse_diag
    rw [h0]
  · have hd : (("you entered " ++ toString ((preprocess s).count '(') ++
        " opening and " ++ toString ((preprocess s).count ')') ++ " closing brackets")).data =
        ("you entered " ++ toString ((preprocess s).count '(') ++
        " opening and " ++ toString ((preprocess s).count ')')).data ++
        " closing brackets".data := rfl
    rw [hd]
    exact occursIn_append_left _ _ _ (by decide)

/-- C5 (amended): wherever an integer is required — `r`'s repeat count, `w`'s
milliseconds, and `e`'s value — a non-integer parameter makes node
construction fail, and the corresponding source strings produce a non-null
diagnostic in diagnostic mode and null (no macro) in silent mode; for `e`'s
type/code fields a non-integer literal fails exactly when it is not
resolvable in the event-constant registry.  (The registry exception is
forced by `C5_counterexample`: `test_event_1` parses `e(EV_KEY, KEY_A, 1)`
successfully.) -/
theorem C5_integer_slots :
    (∀ (head : Chars) (pn pb : PVal), lowerChars head = "r".data →
        (∀ i : Int, pn ≠ .vint i) → ∃ e, makeNode head [pn, pb] = .error e) ∧
    (∀ (head : Chars) (p : PVal), lowerChars head = "w".data →
        (∀ i : Int, p ≠ .vint i) → ∃ e, makeNode head [p] = .error e) ∧
    (∀ (head : Chars) (pt pc pv : PVal), lowerChars head = "e".data →
        (∀ i : Int, pv ≠ .vint i) → ∃ e, makeNode head [pt, pc, pv] = .error e) ∧
    (∀ t : Chars, t ≠ [] → (∀ c ∈ t, isPlainAlpha c = true) →
        parse_diag ("r(" ++ ⟨t⟩ ++ ",k(a))") ≠ none ∧
        parse_silent ("r(" ++ ⟨t⟩ ++ ",k(a))") = none ∧
        parse_diag ("w(" ++ ⟨t⟩ ++ ")") ≠ none ∧
        parse_silent ("w(" ++ ⟨t⟩ ++ ")") = none ∧
        parse_diag ("e(1,1," ++ ⟨t⟩ ++ ")") ≠ none ∧
        parse_silent ("e(1,1," ++ ⟨t⟩ ++ ")") = none ∧
        (ecodeGet t = none →
          parse_diag ("e(" ++ ⟨t⟩ ++ ",1,1)") ≠ none ∧
          parse_silent ("e(" ++ ⟨t⟩ ++ ",1,1)") = none)) := by
  refine ⟨?_, ?_, ?_, ?_⟩
  · intro head pn pb hlow hni
    have hw : makeNode head [pn, pb] =
        (if isKnownOp (lowerChars head) = false then
          Except.error ("unknown function " ++ (⟨head⟩ : String))
        else makeNodeOps (lowerChars head) [pn, pb]) := rfl
    rw [hw, hlow]
    cases pn with
    | vint i => exact absurd rfl (hni i)
    | vnone => exact ⟨_, rfl⟩
    | vstr s => exact ⟨_, rfl⟩
    | vtree tr => exact ⟨_, rfl⟩
  · intro head p hlow hni
    have hw : makeNode head [p] =
        (if isKnownOp (lowerChars head) = false then
          Except.error ("unknown function " ++ (⟨head⟩ : String))
        else makeNodeOps (lowerChars head) [p]) := rfl
    rw [hw, hlow]
    cases p with
    | vint i => exact absurd rfl (hni i)
    | vnone => exact ⟨_, rfl⟩
    | vstr s => exact ⟨_, rfl⟩
    | vtree tr => exact ⟨_, rfl⟩
  · intro head pt pc pv hlow hni
    have hw : makeNode head [pt, pc, pv] =
        (if isKnownOp (lowerChars head) = false then
          Except.error ("unknown function " ++ (⟨head⟩ : String))
        else makeNodeOps (lowerChars head) [pt, pc, pv]) := rfl
    rw [hw, hlow]
    cases pv with
    | vint i => exact absurd rfl (hni i)
    | vnone => exact ⟨_, rfl⟩
    | vstr s => exact ⟨_, rfl⟩
    | vtree tr => exact ⟨_, rfl⟩
  · intro t hnil hall
    refine ⟨?_, (parse_modes_r_ident t hnil hall).2, ?_,
      (parse_modes_w_ident t hnil hall).2, ?_,
      (parse_modes_e_value_ident t hnil hall).2, ?_⟩
    · rw [(parse_modes_r_ident t hnil hall).1]
      simp
    · rw [(parse_modes_w_ident t hnil hall).1]
      simp
    · rw [(parse_modes_e_value_ident t hnil hall).1]
      simp
    · intro hec
      refine ⟨?_, (parse_modes_e_type_ident t hnil hall hec).2⟩
      rw [(parse_modes_e_type_ident t hnil hall hec).1]
      simp

/-- C5 witness: the non-integer repeat count in `r(foo,k(a))` (cf.
`test_fails`: `r(a, k(b))` is rejected) — non-null diagnostic, null silent
result. -/
theorem C5_integer_slots_witness :
    parse_diag "r(foo,k(a))" ≠ none ∧ parse_silent "r(foo,k(a))" = none :=
  ⟨(C5_integer_slots.2.2.2 "foo".data (by decide) (by decide)).1,
   (C5_integer_slots.2.2.2 "foo".data (by decide) (by decide)).2.1⟩

/-- C5 counterexample: `e(EV_KEY, KEY_A, 1)` has a non-integer literal in
`e`'s type and code slots, yet `test_event_1` runs it and the parser accepts
it — diagnostic mode returns null and silent mode returns a macro — so the
claim's blanket "non-integer in each of `e`'s fields is an error" is false
as stated. -/
theorem C5_counterexample :
    parse_diag "e(EV_KEY, KEY_A, 1)" = none ∧
    parse_silent "e(EV_KEY, KEY_A, 1)" = some (.ev 1 30 1) := by
  decide

/-- C6: diagnostic mode returns null exactly when parsing succeeds (silent
mode returns a macro), and silent mode returns the no-macro sentinel
whenever diagnostic mode reports an error; a bracket imbalance produces a
diagnostic containing `"bracket"`; an unknown head name produces a
diagnostic containing `"unknown"` and the offending name verbatim — shown
at the node-construction level for every parameter list, and on whole
source strings `name(a)` for every unknown alphabetic head. -/
theorem C6_diag_silent_modes :
    (∀ s : String, parse_diag s = none ↔ (∃ m, parse_silent s = some m)) ∧
    (∀ s : String, parse_diag s ≠ none → parse_silent s = none) ∧
    (∀ s : String, (preprocess s).count '(' ≠ (preprocess s).count ')' →
        ∃ e, parse_diag s = some e ∧ occursIn "bracket".data e.data = true) ∧
    (∀ (head : Chars) (ps : List PVal), isKnownOp (lowerChars head) = false →
        makeNode head ps = .error ("unknown function " ++ ⟨head⟩) ∧
        occursIn "unknown".data ("unknown function " ++ (⟨head⟩ : String)).data = true ∧
        occursIn head ("unknown function " ++ (⟨head⟩ : String)).data = true) ∧
    (∀ t : Chars, t ≠ [] → (∀ c ∈ t, isPlainAlpha c = true) →
        isKnownOp (lowerChars t) = false →
        ∃ e, parse_diag (⟨t⟩ ++ "(a)") = some e ∧
          occursIn "unknown".data e.data = true ∧ occursIn t e.data = true) := by
  refine ⟨?_, ?_, parse_diag_bracket, ?_, ?_⟩
  · intro s
    unfold parse_diag parse_silent
    cases h : parseFull s with
    | ok m => simp [Except.toOption]
    | error e => simp [Except.toOption]
  · intro s
    unfold parse_diag parse_silent
    cases h : parseFull s with
    | ok m => simp
    | error e => simp [Except.toOption]
  · intro head ps hko
    have hw : makeNode head ps =
        (if isKnownOp (lowerChars head) = false then
          Except.error ("unknown function " ++ (⟨head⟩ : String))
        else makeNodeOps (lowerChars head) ps) := rfl
    have h0 : makeNode head ps = .error ("unknown function " ++ ⟨head⟩) := by
      rw [hw, if_pos hko]
    have h1 : ("unknown function " ++ (⟨head⟩ : String)).data =
        "unknown".data ++ (" function ".data ++ head) := rfl
    have h2 : ("unknown function " ++ (⟨head⟩ : String)).data =
        "unknown function ".data ++ head := rfl
    refine ⟨h0, ?_, ?_⟩
    · rw [h1]
      exact occursIn_self_append _ _
    · rw [h2]
      exact occursIn_of_suffix _ _
  · intro t hnil hall hko
    refine ⟨"unknown function " ++ ⟨t⟩, (parse_modes_unknown_head t hnil hall hko).1, ?_, ?_⟩
    · have h1 : ("unknown function " ++ (⟨t⟩ : String)).data =
          "unknown".data ++ (" function ".data ++ t) := rfl
      rw [h1]
      exact occursIn_self_append _ _
    · have h2 : ("unknown function " ++ (⟨t⟩ : String)).data =
          "unknown function ".data ++ t := rfl
      rw [h2]
      exact occursIn_of_suffix _ _

/-- C6 witness: the unknown head `foo(a)` from `test_return_errors` — the
diagnostic contains "unknown" and "foo" — and the bracket imbalance `k(1))`
from the same test — the diagnostic contains "bracket". -/
theorem C6_diag_silent_modes_witness :
    (∃ e, parse_diag "foo(a)" = some e ∧
      occursIn "unknown".data e.data = true ∧ occursIn "foo".data e.data = true) ∧
    (∃ e, parse_diag "k(1))" = some e ∧ occursIn "bracket".data e.data = true) :=
  ⟨C6_diag_silent_modes.2.2.2.2 "foo".data (by decide) (by decide) (by decide),
   C6_diag_silent_modes.2.2.1 "k(1))" (by decide)⟩

end KeyMapper
